import Mathlib

/-!
# failmail: the batching, compaction and summary engine (`messages.go`)

A shallow embedding of `messages.go` and the properties of its buffer,
compactor and summariser.

Modelling conventions.

* `time.Time` is an instant counted in nanoseconds from the zero time
  (0001-01-01 00:00:00 UTC), so the zero `Time` is `0`; `time.Duration` is a
  count of nanoseconds and `Time.Sub` saturates at the ends of the int64 range
  as the library documents.
* A Go `map[string]V` is a `GoMap V`: a key-duplicate-free list of entries.
  The order of the list is the order in which `range` happens to visit the
  map, so quantifying over every `GoMap` quantifies over every iteration
  order.
* A run-time panic (a nil pointer dereference, or a classifier that fails) is
  the result `none`.
* `nowGetter` is the injected clock. A function that reads it once takes the
  reading as an argument; `Flush`, which reads it several times, takes the
  sequence of readings.
* `mail.ParseDate` belongs to the standard library and is a parameter
  (`ParseDate`) of everything that reads a date header; so are
  `time.Time.Format` (`Format`) and the package `regexp` (`RegexpLibrary`).
* `session.go` is not among the sources. The responses and the session are
  modelled from sections 4.2 and 6 of the specification and from
  `session_test.go`.
-/

namespace Failmail

/-! ## Time -/

/-- An instant (`time.Time`), in nanoseconds since the zero time. -/
abbrev Time := Int

/-- A span of time (`time.Duration`), in nanoseconds. -/
abbrev Duration := Int

/-- The largest `time.Duration` (`1<<63 - 1`). -/
def maxDuration : Duration := 2 ^ 63 - 1

/-- The smallest `time.Duration` (`-1 << 63`). -/
def minDuration : Duration := -(2 ^ 63)

/-- The method `t.Sub(u)`: the duration `t - u`, replaced by the largest or
smallest duration when it does not fit. -/
def Time.Sub (t u : Time) : Duration :=
  if t - u > maxDuration then maxDuration
  else if t - u < minDuration then minDuration
  else t - u

/-- The method `t.IsZero()`. -/
def Time.IsZero (t : Time) : Bool := decide (t = 0)

/-- The method `t.Before(u)`. -/
def Time.Before (t u : Time) : Bool := decide (t < u)

/-- The method `t.After(u)`. -/
def Time.After (t u : Time) : Bool := decide (t > u)

/-! ## Go maps with string keys -/

/-- A Go `map[string]V`: its entries in iteration order, no key twice. -/
structure GoMap (V : Type) where
  entries : List (String × V)
  nodup : (entries.map Prod.fst).Nodup

namespace GoMap

variable {V : Type}

/-- The result of `make(map[string]V)`. -/
def empty : GoMap V := ⟨[], List.nodup_nil⟩

/-- The two-valued index expression `v, ok := m[k]`. -/
def lookup (m : GoMap V) (k : String) : Option V :=
  (m.entries.find? (fun e => e.1 == k)).map Prod.snd

/-- Whether `k` is a key of the map (the `ok` of `_, ok := m[k]`). -/
def contains (m : GoMap V) (k : String) : Bool := (m.lookup k).isSome

/-- The one-valued index expression `m[k]`, which is the zero value `z` of the
element type when the key is absent. -/
def get (m : GoMap V) (k : String) (z : V) : V := (m.lookup k).getD z

/-- The builtin `delete(m, k)`. -/
def delete (m : GoMap V) (k : String) : GoMap V :=
  ⟨m.entries.filter (fun e => !(e.1 == k)), by
    exact m.nodup.sublist ((List.filter_sublist _).map _)⟩

/-- The assignment `m[k] = v`. The entry is put last; its place is immaterial,
the order of iteration of a Go map being unspecified. -/
def set (m : GoMap V) (k : String) (v : V) : GoMap V :=
  ⟨(m.delete k).entries ++ [(k, v)], by
    have h := (m.delete k).nodup
    rw [List.map_append, List.nodup_append]
    refine ⟨h, by simp, ?_⟩
    intro a ha hb
    simp only [List.map_cons, List.map_nil, List.mem_singleton] at hb
    subst hb
    simp [delete] at ha⟩

/-- The keys of the map, in iteration order. -/
def keys (m : GoMap V) : List String := m.entries.map Prod.fst

end GoMap

/-! ## Received messages -/

/-- A `mail.Header`, a `map[string][]string`. -/
abbrev MailHeader := GoMap (List String)

/-- A letter made upper case (`c -= 'a' - 'A'`). -/
def upperByte (c : Char) : Char :=
  if 'a' ≤ c ∧ c ≤ 'z' then Char.ofNat (c.toNat - 32) else c

/-- A letter made lower case (`c += 'a' - 'A'`). -/
def lowerByte (c : Char) : Char :=
  if 'A' ≤ c ∧ c ≤ 'Z' then Char.ofNat (c.toNat + 32) else c

/-- The bytes allowed in a header field name (`validHeaderFieldByte`): letters,
digits and the punctuation of an RFC 7230 token. -/
def validHeaderFieldByte (c : Char) : Bool :=
  c.isAlphanum || "!#$%&*+-.^_|~".data.contains c || c.toNat == 39 || c.toNat == 96

/-- The loop of `textproto.canonicalMIMEHeaderKey`: the first letter and every
letter after a hyphen in upper case, the others in lower case. -/
def canonicalLoop : Bool → List Char → List Char
  | _, [] => []
  | upper, c :: cs =>
    let c1 := if upper then upperByte c else lowerByte c
    c1 :: canonicalLoop (c1 == '-') cs

/-- The standard library function `textproto.CanonicalMIMEHeaderKey`, by which
`mail.Header.Get` looks keys up without regard to letter case. A key holding a
byte that no field name may hold is returned as it is. -/
def CanonicalMIMEHeaderKey (s : String) : String :=
  if s.data.all validHeaderFieldByte then String.mk (canonicalLoop true s.data) else s

/-- The method `h.Get(key)`: the first value stored under the canonical form of
`key`, or the empty string. -/
def MailHeader.Get (h : MailHeader) (key : String) : String :=
  match h.lookup (CanonicalMIMEHeaderKey key) with
  | some (v :: _) => v
  | _ => ""

/-- The method `h.Date()`: the parsed `Date` header, `none` standing for the
error result (header absent, or not parseable by `mail.ParseDate`). -/
def MailHeader.Date (ParseDate : String → Option Time) (h : MailHeader) : Option Time :=
  if h.Get "Date" = "" then none else ParseDate (h.Get "Date")

/-- A `mail.Message`. The body reader is represented by what `ioutil.ReadAll`
gets from it: `some` text, or `none` when reading fails. -/
structure MailMessage where
  Header : MailHeader
  Body : Option String

/-- A message received from an SMTP client. `Message` is a pointer and may be
nil; `bodyCached` is nil until the body has been read. -/
structure ReceivedMessage where
  From : String
  To : List String
  Data : String
  Message : Option MailMessage
  bodyCached : Option String

/-- The method `r.Body()`: the text it returns and the message afterwards (a
successful read fills `bodyCached` and leaves the reader drained). -/
def ReceivedMessage.Body (r : ReceivedMessage) : String × ReceivedMessage :=
  match r.bodyCached with
  | some cached => (cached, r)
  | none =>
    match r.Message with
    | none => ("[no message body]", r)
    | some m =>
      match m.Body with
      | none => ("[unreadable message body]", r)
      | some body =>
        (body, { r with bodyCached := some body, Message := some { m with Body := some "" } })

/-- A classifier. `none` is a call that panics. -/
abbrev GroupBy := ReceivedMessage → Option String

/-! ## Compaction -/

/-- The result of compacting similar received messages. `Count` is a Go `int`;
it counts elements of a slice and cannot overflow. -/
structure UniqueMessage where
  Start : Time := 0
  End : Time := 0
  Body : String := ""
  Subject : String := ""
  Template : String
  Count : Nat := 0

/-- Lines 82 to 89 of `Compact`: the date of the message widens the range of the
unique message when the date header is present and parses. -/
def UniqueMessage.observeDate (unique : UniqueMessage) (d : Option Time) : UniqueMessage :=
  match d with
  | none => unique
  | some date =>
    let u1 := if unique.Start.IsZero || date.Before unique.Start
      then { unique with Start := date } else unique
    if u1.End.IsZero || date.After u1.End then { u1 with End := date } else u1

/-- Lines 82 to 92 of `Compact`: what one message does to the unique message of
its key. `mail` is the dereferenced `msg.Message`. The call `msg.Body()` also
fills the cache of the message, after which the method returns the same text
again (`Body_stable`); so the loop need not carry the messages along. -/
def UniqueMessage.observe (ParseDate : String → Option Time) (unique : UniqueMessage)
    (msg : ReceivedMessage) (mail : MailMessage) : UniqueMessage :=
  let u1 := unique.observeDate (mail.Header.Date ParseDate)
  { u1 with Body := msg.Body.1, Subject := mail.Header.Get "subject", Count := u1.Count + 1 }

/-- One turn of the loop of `Compact`. The map `uniques` and the slice `result`
hold the same pointers, a unique message being stored under the key that is its
`Template`; so `uniques[key]` is the element of `result` whose `Template` is
`key`, and the turn updates that element in place. -/
def compactStep (ParseDate : String → Option Time) (group : GroupBy)
    (result : List UniqueMessage) (msg : ReceivedMessage) : Option (List UniqueMessage) :=
  match group msg with
  | none => none
  | some key =>
    let result1 :=
      if result.any (fun u => u.Template == key) then result
      else result ++ [{ Template := key }]
    match msg.Message with
    | none => none
    | some mail =>
      some (result1.map fun u =>
        if u.Template = key then u.observe ParseDate msg mail else u)

/-- The function `Compact`. -/
def Compact (ParseDate : String → Option Time) (group : GroupBy)
    (received : List ReceivedMessage) : Option (List UniqueMessage) :=
  received.foldlM (compactStep ParseDate group) []

/-! ## Summaries -/

/-- The function `Plural`. -/
def Plural (count : Int) (singular : String) (plural : String) : String :=
  let word := if count = 1 then singular else plural
  toString count ++ " " ++ word

/-- A summary of the messages of one batch. -/
structure SummaryMessage where
  From : String
  To : List String
  Subject : String
  Date : Time
  ReceivedMessages : List ReceivedMessage
  UniqueMessages : List UniqueMessage

/-- The body of the inner loop of `Summarize` (lines 142 to 145). The set
`recipSet` holds exactly the elements of the slice `recips`. -/
def recipStep (recips : List String) (rcpt : String) : List String :=
  if rcpt ∈ recips then recips else recips ++ [rcpt]

/-- The two nested loops of `Summarize` (lines 138 to 147): every recipient of
every message, each kept the first time it is met. -/
def collectRecipients (received : List ReceivedMessage) : List String :=
  received.foldl (fun recips msg => msg.To.foldl recipStep recips) []

/-- The comparison `a < b` of two strings: the lexicographic order of their
character sequences. -/
def stringLess (a b : String) : Prop := a.data < b.data

instance (a b : String) : Decidable (stringLess a b) :=
  inferInstanceAs (Decidable (a.data < b.data))

/-- The standard library function `sort.Strings`: the strings in ascending
order, no string being put after a greater one. -/
def sortStrings (l : List String) : List String :=
  l.insertionSort (fun a b => ¬ stringLess b a)

/-- The function `Summarize`. `date` is the reading of `nowGetter` at line 152.
A panic inside `Compact` is a panic of `Summarize`. -/
def Summarize (ParseDate : String → Option Time) (group : GroupBy) (date : Time)
    (sender : String) (received : List ReceivedMessage) : Option SummaryMessage :=
  let recips := sortStrings (collectRecipients received)
  match Compact ParseDate group received with
  | none => none
  | some uniques =>
    some
      { From := sender
        To := recips
        Subject := "[failmail] " ++ Plural received.length "message" "messages"
        Date := date
        ReceivedMessages := received
        UniqueMessages := uniques }

/-! ## The message buffer -/

/-- The buffer of received messages, keyed by batch. -/
structure MessageBuffer where
  SoftLimit : Duration
  HardLimit : Duration
  Batch : GroupBy
  Group : GroupBy
  first : GoMap Time
  last : GoMap Time
  messages : GoMap (List ReceivedMessage)

/-- The function `NewMessageBuffer`. -/
def NewMessageBuffer (softLimit hardLimit : Duration) (batch group : GroupBy) : MessageBuffer :=
  { SoftLimit := softLimit
    HardLimit := hardLimit
    Batch := batch
    Group := group
    first := GoMap.empty
    last := GoMap.empty
    messages := GoMap.empty }

/-- The test of line 184 of `Flush`: the batch of `key` is kept. -/
def MessageBuffer.keeps (b : MessageBuffer) (now : Time) (key : String) : Bool :=
  decide (now.Sub (b.first.get key 0) < b.HardLimit) &&
    decide (now.Sub (b.last.get key 0) < b.SoftLimit)

/-- The three `delete` calls of lines 188 to 190 of `Flush`. -/
def MessageBuffer.remove (b : MessageBuffer) (key : String) : MessageBuffer :=
  { b with
    messages := b.messages.delete key
    first := b.first.delete key
    last := b.last.delete key }

/-- The state of the loop of `Flush`: the buffer, the summaries made so far, and
whether a call of `Summarize` has panicked (which ends the loop). -/
structure FlushState where
  buffer : MessageBuffer
  summaries : List SummaryMessage
  panicked : Bool

/-- One turn of the loop of `Flush`, for the entry `e` of `b.messages`.
`clock i` is the `i`-th reading of `nowGetter` within the call: reading `0` is
`now`, and the `Summarize` call that makes summary number `i` takes reading
`i + 1`. -/
def flushStep (ParseDate : String → Option Time) (clock : Nat → Time) (sender : String)
    (st : FlushState) (e : String × List ReceivedMessage) : FlushState :=
  if st.panicked then st
  else if st.buffer.keeps (clock 0) e.1 then st
  else
    match Summarize ParseDate st.buffer.Group (clock (st.summaries.length + 1)) sender e.2 with
    | none => { st with panicked := true }
    | some summary =>
      { buffer := st.buffer.remove e.1
        summaries := st.summaries ++ [summary]
        panicked := false }

/-- The method `Flush`: the buffer after the call, and the summaries returned
(`none` when the call panicked). The loop deletes no key but the one it is at,
so `range` visits every entry the map had at the start, each with the value it
had then. -/
def Flush (ParseDate : String → Option Time) (b : MessageBuffer) (clock : Nat → Time)
    (sender : String) : MessageBuffer × Option (List SummaryMessage) :=
  let st := b.messages.entries.foldl (flushStep ParseDate clock sender) ⟨b, [], false⟩
  (st.buffer, if st.panicked then none else some st.summaries)

/-- The method `Add`. `now` is the reading of `nowGetter`; `none` is a panic of
the batch classifier, before anything is changed. -/
def Add (b : MessageBuffer) (now : Time) (msg : ReceivedMessage) : Option MessageBuffer :=
  match b.Batch msg with
  | none => none
  | some key =>
    let b1 :=
      if b.first.contains key then b
      else { b with first := b.first.set key now, messages := b.messages.set key [] }
    let b2 := { b1 with last := b1.last.set key now }
    some { b2 with messages := b2.messages.set key (b2.messages.get key [] ++ [msg]) }

/-! ## Rendering of a summary -/

/-- One turn of the first loop of `Bytes` (lines 115 to 124): the line of one
received message is written to the buffer. `none` is the panic of
`msg.Message.Header` on a nil `Message`. `Format` is the standard library
`time.Time.Format` with the layout `time.RFC822`. -/
def bytesMessageStep (ParseDate : String → Option Time) (Format : Time → String)
    (buf : String) (msg : ReceivedMessage) : Option String :=
  match msg.Message with
  | none => none
  | some mail =>
    let date :=
      match mail.Header.Date ParseDate with
      | none => "?"
      | some d => Format d
    let subject := mail.Header.Get "subject"
    some (buf ++ (date ++ ": " ++ subject ++ "\r\n"))

/-- One turn of the second loop of `Bytes` (lines 126 to 130): the three
`Fprintf` calls that write the block of one unique message. -/
def bytesUniqueStep (Format : Time → String) (buf : String) (unique : UniqueMessage) :
    String :=
  let buf1 := buf ++ ("\r\n# " ++ toString unique.Count ++ " instances\r\n")
  let buf2 := buf1 ++ ("* " ++ Format unique.Start ++ " - " ++ Format unique.End ++ "\r\n")
  buf2 ++ ("\r\n" ++ unique.Template ++ "\r\n- " ++ unique.Subject ++ "\r\n"
    ++ unique.Body ++ "\r\n")

/-- The method `Bytes` of a summary: the text written to the buffer, `none` when
a received message without parsed message makes the method panic. -/
def SummaryMessage.Bytes (ParseDate : String → Option Time) (Format : Time → String)
    (s : SummaryMessage) : Option String :=
  let buf0 := ""
  let buf1 := buf0 ++ ("From: " ++ s.From ++ "\r\n")
  let buf2 := buf1 ++ ("To: " ++ ", ".intercalate s.To ++ "\r\n")
  let buf3 := buf2 ++ ("Subject: " ++ s.Subject ++ "\r\n")
  let buf4 := buf3 ++ ("Date: " ++ Format s.Date ++ "\r\n")
  let buf5 := buf4 ++ "\r\n"
  match s.ReceivedMessages.foldlM (bytesMessageStep ParseDate Format) buf5 with
  | none => none
  | some buf6 => some (s.UniqueMessages.foldl (bytesUniqueStep Format) buf6)

/-! ## The classifiers -/

/-- The white space of the standard library `unicode.IsSpace`. -/
def isSpace (c : Char) : Bool :=
  [9, 10, 11, 12, 13, 32, 133, 160, 5760, 8232, 8233, 8239, 8287, 12288].contains c.toNat
    || (8192 ≤ c.toNat && c.toNat ≤ 8202)

/-- The standard library function `strings.TrimSpace`: the string without its
leading and trailing white space. -/
def TrimSpace (s : String) : String :=
  String.mk ((s.data.dropWhile isSpace).reverse.dropWhile isSpace).reverse

/-- The part of the standard library package `regexp` that the code uses:
compiled expressions, `Compile` (`none` for a pattern that does not compile, on
which `MustCompile` panics) and the method `ReplaceAllString`, which takes the
source string and the replacement. -/
structure RegexpLibrary where
  Regexp : Type
  Compile : String → Option Regexp
  ReplaceAllString : Regexp → String → String → String

/-- The function literal that `ReplacedSubject` returns (lines 230 to 232), `re`
being the compiled pattern. -/
def replacedSubjectOf (lib : RegexpLibrary) (re : lib.Regexp) (replace : String) : GroupBy :=
  fun r =>
    match r.Message with
    | none => none
    | some mail => some (lib.ReplaceAllString re (mail.Header.Get "Subject") replace)

/-- The function `ReplacedSubject`. `none` is the panic of `regexp.MustCompile`
on a pattern that does not compile; the classifier returned panics on a message
whose `Message` is nil. -/
def ReplacedSubject (lib : RegexpLibrary) (pattern : String) (replace : String) :
    Option GroupBy :=
  match lib.Compile pattern with
  | none => none
  | some re => some (replacedSubjectOf lib re replace)

/-- The function `SameSubject`. The classifier panics on a message whose
`Message` is nil. -/
def SameSubject : GroupBy := fun r =>
  match r.Message with
  | none => none
  | some mail => some (TrimSpace (mail.Header.Get "Subject"))

/-- The function `Header`. The header map is indexed with `header` as it is
given, and the classifier panics on a message whose `Message` is nil. -/
def Header (header : String) (defaultValue : String) : GroupBy := fun r =>
  match r.Message with
  | none => none
  | some mail =>
    match mail.Header.lookup header with
    | some [v] => some v
    | _ => some defaultValue

/-! ## The protocol session -/

/-- Modelled from the spec: the type `Response` of `session.go`, which is not
among the sources, a numeric status and a free text (section 4.2). -/
structure Response where
  Code : Int
  Text : String

/-- Modelled from the spec: the method `IsClose` of `session.go`, "true only for
221" (section 4.2). -/
def Response.IsClose (r : Response) : Bool := decide (r.Code = 221)

/-- Modelled from the spec: the method `NeedsData` of `session.go`, "true only
for 354" (section 4.2). -/
def Response.NeedsData (r : Response) : Bool := decide (r.Code = 354)

/-- Modelled from the spec: the command nodes that the parser, which is not among
the sources, hands to a session (section 6): the verbs of the protocol, `MAIL`
and `RCPT` with their mailbox, and `invalid` for an absent or argument-less
node. -/
inductive Command where
  | helo
  | ehlo
  | noop
  | mail (mailbox : String)
  | rcpt (mailbox : String)
  | data
  | rset
  | vrfy
  | quit
  | invalid

/-- Modelled from the spec: the type `Session` of `session.go`. The state of a
session is its received message in progress (section 4.2): the sender is set
when `From` is not empty. -/
structure Session where
  Received : ReceivedMessage

/-- Modelled from the spec: the method `Start` of `session.go`, which allocates
an empty received message and greets with 220 (table of section 4.2). -/
def Session.Start : Session × Response :=
  ({ Received := { From := "", To := [], Data := "", Message := none, bodyCached := none } },
    { Code := 220, Text := "greeting" })

/-- Modelled from the spec: the method `Advance` of `session.go`, row by row of
the table of section 4.2. The table has no row for `DATA` without a recipient;
the sequencing error of section 7 is taken for it. The texts of the responses
are not given by the specification. -/
def Session.Advance (s : Session) (cmd : Command) : Session × Response :=
  match cmd with
  | .helo => (s, { Code := 250, Text := "ok" })
  | .ehlo => (s, { Code := 250, Text := "ok" })
  | .noop => (s, { Code := 250, Text := "ok" })
  | .mail mailbox =>
    if s.Received.From = "" then
      ({ s with Received := { s.Received with From := mailbox } }, { Code := 250, Text := "ok" })
    else (s, { Code := 503, Text := "bad sequence" })
  | .rcpt mailbox =>
    if s.Received.From = "" then (s, { Code := 503, Text := "bad sequence" })
    else
      ({ s with Received := { s.Received with To := s.Received.To ++ [mailbox] } },
        { Code := 250, Text := "ok" })
  | .data =>
    if s.Received.To = [] then (s, { Code := 503, Text := "bad sequence" })
    else (s, { Code := 354, Text := "start data input" })
  | .rset => (s, { Code := 502, Text := "not implemented" })
  | .vrfy => (s, { Code := 252, Text := "cannot verify, will attempt" })
  | .quit => (s, { Code := 221, Text := "closing" })
  | .invalid => (s, { Code := 500, Text := "syntax error" })

/-- Modelled from the spec: a sequence of commands advanced one after the other
through a session, as the command loop of a connection does (section 5); the
session at the end and the responses in order. -/
def Session.AdvanceAll (s : Session) : List Command → Session × List Response
  | [] => (s, [])
  | cmd :: cmds =>
    let step := s.Advance cmd
    let rest := Session.AdvanceAll step.1 cmds
    (rest.1, step.2 :: rest.2)

/-! ## Notions used to state the properties -/

/-- The messages `Compact` can process without a panic: each has its parsed
message attached and the classifier returns a key for it. -/
def Compactable (group : GroupBy) (received : List ReceivedMessage) : Prop :=
  ∀ m ∈ received, (group m).isSome = true ∧ m.Message.isSome = true

instance (group : GroupBy) (received : List ReceivedMessage) :
    Decidable (Compactable group received) :=
  inferInstanceAs (Decidable (∀ m ∈ received, (group m).isSome = true ∧ m.Message.isSome = true))

/-- The messages of `received` whose classification is `k`, in their order. -/
def classified (group : GroupBy) (k : String) (received : List ReceivedMessage) :
    List ReceivedMessage :=
  received.filter (fun m => group m == some k)

/-- The position in `received` of the first message whose classification is
`k` (the length of `received` when there is none). -/
def firstIndex (group : GroupBy) (k : String) (received : List ReceivedMessage) : Nat :=
  received.findIdx (fun m => group m == some k)

/-- The values of the date headers of the messages that have a date header
which is present and parses, in the order of the messages. -/
def parsedDates (ParseDate : String → Option Time) (received : List ReceivedMessage) :
    List Time :=
  received.filterMap (fun m => m.Message.bind (fun mail => mail.Header.Date ParseDate))

/-- The unique message obtained when the messages `msgs` act in turn, as in the
loop of `Compact`, on a new unique message of template `k`. -/
def groupUnique (ParseDate : String → Option Time) (k : String)
    (msgs : List ReceivedMessage) : UniqueMessage :=
  msgs.foldl
    (fun u m =>
      match m.Message with
      | some mail => u.observe ParseDate m mail
      | none => u)
    { Template := k }

/-- The header block of the rendering of a summary, `From`, `To`, `Subject` and
`Date`, and the blank line that ends it. -/
def summaryHeader (Format : Time → String) (s : SummaryMessage) : String :=
  "From: " ++ s.From ++ "\r\n"
    ++ ("To: " ++ ", ".intercalate s.To ++ "\r\n")
    ++ ("Subject: " ++ s.Subject ++ "\r\n")
    ++ ("Date: " ++ Format s.Date ++ "\r\n")
    ++ "\r\n"

/-- The date shown for a received message: its date header formatted when the
header is present and parses, a question mark otherwise. -/
def dateOrQuestionMark (ParseDate : String → Option Time) (Format : Time → String)
    (m : ReceivedMessage) : String :=
  match m.Message.bind (fun mail => mail.Header.Date ParseDate) with
  | some d => Format d
  | none => "?"

/-- The subject header of a received message. -/
def subjectOf (m : ReceivedMessage) : String :=
  match m.Message with
  | some mail => mail.Header.Get "subject"
  | none => ""

/-- The line of a received message in the rendering: the date or a question
mark, a colon, a space, the subject, and the end of the line. -/
def messageLine (ParseDate : String → Option Time) (Format : Time → String)
    (m : ReceivedMessage) : String :=
  dateOrQuestionMark ParseDate Format m ++ ": " ++ subjectOf m ++ "\r\n"

/-- The line of a received message in the form the specification gives it,
`<date or "?"> : <subject>`, with a space on either side of the colon. -/
def specMessageLine (ParseDate : String → Option Time) (Format : Time → String)
    (m : ReceivedMessage) : String :=
  dateOrQuestionMark ParseDate Format m ++ " : " ++ subjectOf m ++ "\r\n"

/-- The block of a unique message in the rendering: a blank line, the number of
instances, the range from start to end, a blank line, the template, the subject
and the body. -/
def uniqueBlock (Format : Time → String) (u : UniqueMessage) : String :=
  "\r\n# " ++ toString u.Count ++ " instances\r\n"
    ++ ("* " ++ Format u.Start ++ " - " ++ Format u.End ++ "\r\n")
    ++ ("\r\n" ++ u.Template ++ "\r\n- " ++ u.Subject ++ "\r\n" ++ u.Body ++ "\r\n")

/-- The invariant of the buffer: the three maps have the same keys, and a key is
among them exactly when its sequence of messages is not empty. -/
def MessageBuffer.Invariant (b : MessageBuffer) : Prop :=
  ∀ k, b.first.contains k = b.messages.contains k ∧
    b.last.contains k = b.messages.contains k ∧
    (b.messages.contains k = true ↔ 0 < (b.messages.get k []).length)

/-! ## Concrete data for the examples -/

/-- A stand-in for `mail.ParseDate` in the examples: it reads two dates, the first
of which is the zero time. -/
def exampleParseDate (s : String) : Option Time :=
  if s = "01 Jan 0001 00:00:00 +0000" then some 0
  else if s = "01 Jan 2014 00:00:00 +0000" then some 63524131200000000000
  else none

/-- A parsed message with the given subject and date header. -/
def exampleMail (subject date : String) : MailMessage :=
  { Header := (GoMap.empty.set "Subject" [subject]).set "Date" [date]
    Body := some ("body of " ++ subject) }

/-- A received message with the given subject, date header and recipients. -/
def exampleMessage (subject date : String) (recipients : List String) : ReceivedMessage :=
  { From := "sender@example.com"
    To := recipients
    Data := ""
    Message := some (exampleMail subject date)
    bodyCached := none }

/-- The classifier of the examples: the subject header of the parsed message. -/
def exampleGroup : GroupBy := fun r =>
  match r.Message with
  | none => none
  | some mail => some (mail.Header.Get "Subject")

/-- Three messages, the first and the last with the same subject. -/
def exampleMessages : List ReceivedMessage :=
  [exampleMessage "disk full" "01 Jan 2014 00:00:00 +0000" ["ops@example.com", "dev@example.com"],
   exampleMessage "job failed" "no date" ["dev@example.com"],
   exampleMessage "disk full" "no date" ["ops@example.com", "admin@example.com"]]

/-- Two messages of one subject, the first dated at the zero time and the second
later. -/
def zeroDatedMessages : List ReceivedMessage :=
  [exampleMessage "disk full" "01 Jan 0001 00:00:00 +0000" ["ops@example.com"],
   exampleMessage "disk full" "01 Jan 2014 00:00:00 +0000" ["ops@example.com"]]

/-- A new buffer whose soft limit is 60 and whose hard limit is 300, batching and
grouping by subject. -/
def exampleBuffer : MessageBuffer := NewMessageBuffer 60 300 exampleGroup exampleGroup

/-- A message on a full disk. -/
def diskFull : ReceivedMessage :=
  exampleMessage "disk full" "01 Jan 2014 00:00:00 +0000" ["ops@example.com"]

/-- A message on a failed job. -/
def jobFailed : ReceivedMessage :=
  exampleMessage "job failed" "no date" ["dev@example.com"]

/-- The buffer after `diskFull` was added at time 1000. -/
def exampleBufferOne : MessageBuffer :=
  (Add exampleBuffer 1000 diskFull).getD exampleBuffer

/-- The buffer after `diskFull` was added at time 1000 and `jobFailed` at time
1290. -/
def exampleBufferTwo : MessageBuffer :=
  (Add exampleBufferOne 1290 jobFailed).getD exampleBufferOne

/-- A clock that reads 1310 every time. -/
def exampleClock : Nat → Time := fun _ => 1310

/-- A stand-in for `time.Time.Format` in the examples: the count of nanoseconds
in decimal. -/
def exampleFormat (t : Time) : String := toString t

/-- The summary of the one message `jobFailed`, which has no date that parses. -/
def exampleSummary : SummaryMessage :=
  { From := "failmail@example.com"
    To := ["dev@example.com"]
    Subject := "[failmail] 1 message"
    Date := 1310
    ReceivedMessages := [jobFailed]
    UniqueMessages :=
      [{ Template := "job failed", Subject := "job failed", Body := "body of job failed",
         Count := 1 }] }

/-- A received message whose parsed message was never attached. -/
def unparsedMessage : ReceivedMessage :=
  { From := "sender@example.com", To := ["ops@example.com"], Data := "", Message := none,
    bodyCached := none }

/-- A received message whose parsed message has no header at all, and so no
subject. -/
def headerlessMessage : ReceivedMessage :=
  { From := "sender@example.com", To := ["ops@example.com"], Data := "",
    Message := some { Header := GoMap.empty, Body := some "" }, bodyCached := none }

/-- The loop of `exampleRegexp`: every run of decimal digits of the source
replaced by `repl`. `inRun` tells that the character before was a digit. -/
def replaceDigitRuns (repl : List Char) : Bool → List Char → List Char
  | _, [] => []
  | inRun, c :: cs =>
    if c.isDigit then
      if inRun then replaceDigitRuns repl true cs else repl ++ replaceDigitRuns repl true cs
    else c :: replaceDigitRuns repl false cs

/-- A stand-in for the package `regexp` in the examples: it compiles the one
pattern `[0-9]+` and replaces every run of digits. -/
def exampleRegexp : RegexpLibrary :=
  { Regexp := Unit
    Compile := fun pattern => if pattern = "[0-9]+" then some () else none
    ReplaceAllString := fun _ src repl => String.mk (replaceDigitRuns repl.data false src.data) }

/-- A message whose subject is "Job 123 failed". -/
def job123 : ReceivedMessage := exampleMessage "Job 123 failed" "no date" ["ops@example.com"]

/-- A message whose subject is "Job 456 failed". -/
def job456 : ReceivedMessage := exampleMessage "Job 456 failed" "no date" ["ops@example.com"]

/-- The buffer states reachable from `NewMessageBuffer` by calls of `Add` and
`Flush`. -/
inductive Reachable (ParseDate : String → Option Time) : MessageBuffer → Prop
  | new (softLimit hardLimit : Duration) (batch group : GroupBy) :
      Reachable ParseDate (NewMessageBuffer softLimit hardLimit batch group)
  | add {b b1 : MessageBuffer} (now : Time) (msg : ReceivedMessage) :
      Reachable ParseDate b → Add b now msg = some b1 → Reachable ParseDate b1
  | flush {b : MessageBuffer} (clock : Nat → Time) (sender : String) :
      Reachable ParseDate b → Reachable ParseDate (Flush ParseDate b clock sender).1

/-! ## Lemmas on Go maps -/

namespace GoMap

variable {V : Type}

theorem lookup_empty (k : String) : (empty : GoMap V).lookup k = none := rfl

theorem find_filter_self (l : List (String × V)) (k : String) :
    (l.filter (fun e => !(e.1 == k))).find? (fun e => e.1 == k) = none := by
  rw [List.find?_eq_none]
  intro e he
  have := (List.mem_filter.1 he).2
  simpa using this

theorem find_filter_ne (l : List (String × V)) {k k1 : String} (h : k1 ≠ k) :
    (l.filter (fun e => !(e.1 == k))).find? (fun e => e.1 == k1)
      = l.find? (fun e => e.1 == k1) := by
  induction l with
  | nil => rfl
  | cons e l ih =>
    by_cases hk : e.1 = k
    · have h1 : (e.1 == k1) = false := by
        rw [beq_eq_false_iff_ne]
        exact fun h2 => h (h2.symm.trans hk)
      have h2 : (e.1 == k) = true := by simpa using hk
      rw [List.filter_cons, List.find?_cons, h1]
      simp only [h2, Bool.not_true, Bool.false_eq_true, if_false]
      exact ih
    · have h2 : (e.1 == k) = false := by simpa using hk
      rw [List.filter_cons]
      simp only [h2, Bool.not_false, if_true]
      rw [List.find?_cons, List.find?_cons, ih]

theorem lookup_delete_self (m : GoMap V) (k : String) : (m.delete k).lookup k = none := by
  simp [lookup, delete, find_filter_self]

theorem lookup_delete_ne (m : GoMap V) {k k1 : String} (h : k1 ≠ k) :
    (m.delete k).lookup k1 = m.lookup k1 := by
  simp only [lookup, delete, find_filter_ne _ h]

theorem lookup_set_self (m : GoMap V) (k : String) (v : V) : (m.set k v).lookup k = some v := by
  simp [lookup, set, delete, List.find?_append, find_filter_self]

theorem lookup_set_ne (m : GoMap V) {k k1 : String} (v : V) (h : k1 ≠ k) :
    (m.set k v).lookup k1 = m.lookup k1 := by
  have h1 : ¬ k = k1 := fun h2 => h h2.symm
  simp [lookup, set, delete, List.find?_append, find_filter_ne _ h, h1]

theorem lookup_of_mem (m : GoMap V) {k : String} {v : V} (h : (k, v) ∈ m.entries) :
    m.lookup k = some v := by
  obtain ⟨l, nd⟩ := m
  simp only [lookup]
  simp only at h
  induction l with
  | nil => simp at h
  | cons e l ih =>
    rw [List.map_cons, List.nodup_cons] at nd
    rcases List.mem_cons.1 h with h1 | h1
    · subst h1
      simp
    · have hne : ¬ e.1 = k := by
        intro h2
        apply nd.1
        rw [h2]
        exact List.mem_map_of_mem Prod.fst h1
      simp [List.find?_cons, hne]
      simpa using ih nd.2 h1

theorem mem_of_lookup (m : GoMap V) {k : String} {v : V} (h : m.lookup k = some v) :
    (k, v) ∈ m.entries := by
  simp only [lookup, Option.map_eq_some'] at h
  obtain ⟨e, he, hv⟩ := h
  have h1 := List.find?_some he
  have h2 := List.mem_of_find?_eq_some he
  simp only [beq_iff_eq] at h1
  subst h1 hv
  exact h2

theorem lookup_none_of_not_mem_keys (m : GoMap V) {k : String} (h : k ∉ m.keys) :
    m.lookup k = none := by
  cases hl : m.lookup k with
  | none => rfl
  | some v => exact absurd (List.mem_map_of_mem Prod.fst (m.mem_of_lookup hl)) h

end GoMap

/-! ## Lemmas on `Compact` -/

/-- A second call of `Body` on the same message returns the text of the first. -/
theorem Body_stable (r : ReceivedMessage) : r.Body.2.Body.1 = r.Body.1 := by
  unfold ReceivedMessage.Body
  cases hc : r.bodyCached with
  | some cached => simp [hc]
  | none =>
    cases hm : r.Message with
    | none => simp [hc, hm]
    | some m =>
      cases hb : m.Body with
      | none => simp [hc, hm, hb]
      | some body => simp [hb]

section CompactLemmas

variable (P : String → Option Time) (group : GroupBy)

theorem observeDate_Template (u : UniqueMessage) (d : Option Time) :
    (u.observeDate d).Template = u.Template := by
  unfold UniqueMessage.observeDate
  cases d with
  | none => rfl
  | some date =>
    simp only
    split <;> split <;> rfl

theorem observeDate_Count (u : UniqueMessage) (d : Option Time) :
    (u.observeDate d).Count = u.Count := by
  unfold UniqueMessage.observeDate
  cases d with
  | none => rfl
  | some date =>
    simp only
    split <;> split <;> rfl

theorem observe_Template (u : UniqueMessage) (msg : ReceivedMessage) (mail : MailMessage) :
    (u.observe P msg mail).Template = u.Template := by
  simp [UniqueMessage.observe, observeDate_Template]

theorem observe_Count (u : UniqueMessage) (msg : ReceivedMessage) (mail : MailMessage) :
    (u.observe P msg mail).Count = u.Count + 1 := by
  simp [UniqueMessage.observe, observeDate_Count]

theorem Compact_snoc (l : List ReceivedMessage) (m : ReceivedMessage) :
    Compact P group (l ++ [m])
      = (Compact P group l).bind (fun r => compactStep P group r m) := by
  simp [Compact, List.foldlM_append]

theorem any_Template_iff (us : List UniqueMessage) (key : String) :
    us.any (fun u => u.Template == key) = true ↔ key ∈ us.map (fun u => u.Template) := by
  simp only [List.any_eq_true, beq_iff_eq, List.mem_map]

theorem map_update_of_not_mem (us : List UniqueMessage) (key : String)
    (g : UniqueMessage → UniqueMessage) (h : key ∉ us.map (fun u => u.Template)) :
    us.map (fun u => if u.Template = key then g u else u) = us := by
  induction us with
  | nil => rfl
  | cons u us ih =>
    simp only [List.map_cons, List.mem_cons, not_or] at h
    rw [List.map_cons, ih h.2, if_neg (fun h1 => h.1 h1.symm)]

theorem sum_Count_update (us : List UniqueMessage) (key : String)
    (g : UniqueMessage → UniqueMessage) (hg : ∀ u, (g u).Count = u.Count + 1)
    (hnd : (us.map (fun u => u.Template)).Nodup) (hin : key ∈ us.map (fun u => u.Template)) :
    ((us.map (fun u => if u.Template = key then g u else u)).map (fun u => u.Count)).sum
      = (us.map (fun u => u.Count)).sum + 1 := by
  induction us with
  | nil => simp at hin
  | cons u us ih =>
    rw [List.map_cons, List.nodup_cons] at hnd
    by_cases hu : u.Template = key
    · have hnot : key ∉ us.map (fun u => u.Template) := hu ▸ hnd.1
      rw [List.map_cons, map_update_of_not_mem us key g hnot, if_pos hu]
      simp only [List.map_cons, List.sum_cons, hg]
      omega
    · have hin1 : key ∈ us.map (fun u => u.Template) := by
        rcases List.mem_cons.1 hin with h1 | h1
        · exact absurd h1.symm hu
        · exact h1
      rw [List.map_cons, if_neg hu]
      simp only [List.map_cons, List.sum_cons, ih hnd.2 hin1]
      omega

theorem classified_snoc_self (l : List ReceivedMessage) (m : ReceivedMessage) (key : String)
    (h : group m = some key) :
    classified group key (l ++ [m]) = classified group key l ++ [m] := by
  simp [classified, List.filter_append, h]

theorem classified_snoc_ne (l : List ReceivedMessage) (m : ReceivedMessage) (key k : String)
    (h : group m = some key) (hne : k ≠ key) :
    classified group k (l ++ [m]) = classified group k l := by
  have h1 : ¬ key = k := fun h2 => hne h2.symm
  simp [classified, List.filter_append, h, h1]

theorem groupUnique_snoc (k : String) (msgs : List ReceivedMessage) (m : ReceivedMessage)
    (mail : MailMessage) (h : m.Message = some mail) :
    groupUnique P k (msgs ++ [m]) = (groupUnique P k msgs).observe P m mail := by
  simp [groupUnique, List.foldl_append, h]

theorem firstIndex_lt (l : List ReceivedMessage) (a : String)
    (h : ∃ x ∈ l, group x = some a) : firstIndex group a l < l.length := by
  obtain ⟨x, hx, hxa⟩ := h
  exact List.findIdx_lt_length_of_exists ⟨x, hx, by simp [hxa]⟩

theorem firstIndex_snoc_of_mem (l : List ReceivedMessage) (m : ReceivedMessage) (a : String)
    (h : ∃ x ∈ l, group x = some a) : firstIndex group a (l ++ [m]) = firstIndex group a l := by
  have := firstIndex_lt group l a h
  unfold firstIndex at this ⊢
  rw [List.findIdx_append, if_pos this]

theorem firstIndex_snoc_of_not_mem (l : List ReceivedMessage) (m : ReceivedMessage) (b : String)
    (h : ¬ ∃ x ∈ l, group x = some b) (hm : group m = some b) :
    firstIndex group b (l ++ [m]) = l.length := by
  have h1 : l.findIdx (fun m => group m == some b) = l.length := by
    rw [List.findIdx_eq_length]
    intro x hx
    rw [beq_eq_false_iff_ne]
    exact fun hxb => h ⟨x, hx, hxb⟩
  unfold firstIndex
  rw [List.findIdx_append, h1, if_neg (Nat.lt_irrefl _)]
  simp [List.findIdx_cons, hm]

theorem compactStep_eq (us : List UniqueMessage) (m : ReceivedMessage) (key : String)
    (mail : MailMessage) (hkey : group m = some key) (hmail : m.Message = some mail) :
    compactStep P group us m
      = some ((if key ∈ us.map (fun u => u.Template) then us else us ++ [{ Template := key }]).map
          (fun u => if u.Template = key then u.observe P m mail else u)) := by
  unfold compactStep
  simp only [hkey, hmail]
  by_cases hin : key ∈ us.map (fun u => u.Template)
  · rw [if_pos ((any_Template_iff us key).2 hin), if_pos hin]
  · rw [if_neg (fun h => hin ((any_Template_iff us key).1 h)), if_neg hin]

theorem Compact_spec (l : List ReceivedMessage) (h : Compactable group l) :
    ∃ us, Compact P group l = some us ∧
      (∀ k, k ∈ us.map (fun u => u.Template) ↔ ∃ m ∈ l, group m = some k) ∧
      (us.map (fun u => u.Template)).Pairwise
        (fun a b => firstIndex group a l < firstIndex group b l) ∧
      (∀ u ∈ us, u = groupUnique P u.Template (classified group u.Template l)) ∧
      (us.map (fun u => u.Count)).sum = l.length := by
  induction l using List.reverseRecOn with
  | nil => exact ⟨[], rfl, by simp, by simp, by simp, by simp⟩
  | append_singleton l m ih =>
    have hl : Compactable group l := fun x hx => h x (List.mem_append_left _ hx)
    obtain ⟨us, hus, hmem, hpw, hcont, hsum⟩ := ih hl
    have hm := h m (by simp)
    obtain ⟨key, hkey⟩ := Option.isSome_iff_exists.1 hm.1
    obtain ⟨mail, hmail⟩ := Option.isSome_iff_exists.1 hm.2
    have hTks : ∀ a, a ∈ us.map (fun u => u.Template) → ∃ x ∈ l, group x = some a :=
      fun a ha => (hmem a).1 ha
    have hpw1 : (us.map (fun u => u.Template)).Pairwise
        (fun a b => firstIndex group a (l ++ [m]) < firstIndex group b (l ++ [m])) := by
      refine hpw.imp_of_mem ?_
      intro a b ha hb hab
      rw [firstIndex_snoc_of_mem group l m a (hTks a ha),
        firstIndex_snoc_of_mem group l m b (hTks b hb)]
      exact hab
    have hnd : (us.map (fun u => u.Template)).Nodup :=
      List.Pairwise.imp (fun {a b} (hab : firstIndex group a l < firstIndex group b l)
        (heq : a = b) => Nat.ne_of_lt hab (by rw [heq])) hpw
    rw [Compact_snoc, hus, Option.some_bind, compactStep_eq P group us m key mail hkey hmail]
    refine ⟨_, rfl, ?_⟩
    by_cases hin : key ∈ us.map (fun u => u.Template)
    · rw [if_pos hin]
      have hT : (us.map (fun u => if u.Template = key then u.observe P m mail else u)).map
          (fun u => u.Template) = us.map (fun u => u.Template) := by
        rw [List.map_map]
        apply List.map_congr_left
        intro u _
        simp only [Function.comp]
        split
        · exact observe_Template P u m mail
        · rfl
      refine ⟨?_, ?_, ?_, ?_⟩
      · intro k
        rw [hT, hmem k]
        constructor
        · rintro ⟨x, hx, hxk⟩
          exact ⟨x, List.mem_append_left _ hx, hxk⟩
        · rintro ⟨x, hx, hxk⟩
          rcases List.mem_append.1 hx with h1 | h1
          · exact ⟨x, h1, hxk⟩
          · rw [List.mem_singleton] at h1
            subst h1
            rw [hkey] at hxk
            cases hxk
            exact (hmem _).1 hin
      · rw [hT]
        exact hpw1
      · intro u1 hu1
        obtain ⟨u, hu, rfl⟩ := List.mem_map.1 hu1
        by_cases hk : u.Template = key
        · rw [if_pos hk, observe_Template, hk, classified_snoc_self group l m key hkey,
            groupUnique_snoc P key _ m mail hmail]
          have := hcont u hu
          rw [hk] at this
          rw [← this]
        · rw [if_neg hk, classified_snoc_ne group l m key _ hkey hk]
          exact hcont u hu
      · rw [sum_Count_update us key _ (fun u => observe_Count P u m mail) hnd hin, hsum]
        simp
    · rw [if_neg hin]
      have hclass : classified group key l = [] := by
        simp only [classified, List.filter_eq_nil_iff, beq_iff_eq]
        intro x hx hxk
        exact hin ((hmem key).2 ⟨x, hx, hxk⟩)
      rw [List.map_append, map_update_of_not_mem us key _ hin]
      simp only [List.map_cons, List.map_nil, if_true]
      refine ⟨?_, ?_, ?_, ?_⟩
      · intro k
        simp only [List.map_append, List.mem_append, List.map_cons, List.map_nil,
          List.mem_singleton, observe_Template]
        rw [hmem k]
        constructor
        · rintro (⟨x, hx, hxk⟩ | rfl)
          · exact ⟨x, Or.inl hx, hxk⟩
          · exact ⟨m, Or.inr rfl, hkey⟩
        · rintro ⟨x, hx | hx, hxk⟩
          · exact Or.inl ⟨x, hx, hxk⟩
          · subst hx
            rw [hkey] at hxk
            cases hxk
            exact Or.inr rfl
      · simp only [List.map_append, List.map_cons, List.map_nil, observe_Template]
        rw [List.pairwise_append]
        refine ⟨hpw1, List.pairwise_singleton _ _, ?_⟩
        intro a ha b hb
        rw [List.mem_singleton] at hb
        subst hb
        have hnk : ¬ ∃ x ∈ l, group x = some b := fun hb => hin ((hmem b).2 hb)
        rw [firstIndex_snoc_of_mem group l m a (hTks a ha),
          firstIndex_snoc_of_not_mem group l m b hnk hkey]
        exact firstIndex_lt group l a (hTks a ha)
      · intro u hu
        rcases List.mem_append.1 hu with h1 | h1
        · have hk : u.Template ≠ key := by
            intro hk
            exact hin (hk ▸ List.mem_map_of_mem (fun u => u.Template) h1)
          rw [classified_snoc_ne group l m key _ hkey hk]
          exact hcont u h1
        · rw [List.mem_singleton] at h1
          subst h1
          rw [observe_Template, classified_snoc_self group l m key hkey, hclass]
          simp [groupUnique, hmail]
      · simp only [List.map_append, List.map_cons, List.map_nil, List.sum_append, List.sum_cons,
          List.sum_nil, observe_Count, hsum, List.length_append, List.length_singleton]
        omega

theorem Compactable_of_Compact (l : List ReceivedMessage) (us : List UniqueMessage)
    (h : Compact P group l = some us) : Compactable group l := by
  induction l using List.reverseRecOn generalizing us with
  | nil => intro m hm; simp at hm
  | append_singleton l m ih =>
    rw [Compact_snoc] at h
    obtain ⟨us0, h0, h1⟩ := Option.bind_eq_some.1 h
    intro x hx
    rcases List.mem_append.1 hx with hx | hx
    · exact ih us0 h0 x hx
    · rw [List.mem_singleton] at hx
      subst hx
      unfold compactStep at h1
      cases hg : group x with
      | none => simp [hg] at h1
      | some key =>
        cases hmsg : x.Message with
        | none => simp [hg, hmsg] at h1
        | some mail => simp

theorem Compact_content (l : List ReceivedMessage) (us : List UniqueMessage)
    (h : Compact P group l = some us) (u : UniqueMessage) (hu : u ∈ us) :
    u = groupUnique P u.Template (classified group u.Template l) := by
  obtain ⟨us1, h1, _, _, hcont, _⟩ := Compact_spec P group l (Compactable_of_Compact P group l us h)
  rw [h] at h1
  cases h1
  exact hcont u hu

theorem classified_Message (l : List ReceivedMessage) (h : Compactable group l) (k : String) :
    ∀ m ∈ classified group k l, m.Message.isSome = true :=
  fun m hm => (h m (List.mem_filter.1 hm).1).2

theorem groupUnique_Count (k : String) (msgs : List ReceivedMessage)
    (h : ∀ m ∈ msgs, m.Message.isSome = true) : (groupUnique P k msgs).Count = msgs.length := by
  induction msgs using List.reverseRecOn with
  | nil => rfl
  | append_singleton l m ih =>
    obtain ⟨mail, hmail⟩ := Option.isSome_iff_exists.1 (h m (by simp))
    rw [groupUnique_snoc P k l m mail hmail, observe_Count,
      ih (fun x hx => h x (List.mem_append_left _ hx)), List.length_append, List.length_singleton]

theorem groupUnique_last (k : String) (msgs : List ReceivedMessage) (m : ReceivedMessage)
    (mail : MailMessage) (hlast : msgs.getLast? = some m) (hmail : m.Message = some mail) :
    (groupUnique P k msgs).Body = m.Body.1 ∧
      (groupUnique P k msgs).Subject = mail.Header.Get "subject" := by
  induction msgs using List.reverseRecOn with
  | nil => simp at hlast
  | append_singleton l x _ =>
    rw [List.getLast?_concat, Option.some.injEq] at hlast
    subst hlast
    rw [groupUnique_snoc P k l x mail hmail]
    exact ⟨rfl, rfl⟩

theorem observeDate_some_Start (u : UniqueMessage) (d : Time) :
    (u.observeDate (some d)).Start = if u.Start = 0 ∨ d < u.Start then d else u.Start := by
  simp only [UniqueMessage.observeDate, Time.IsZero, Time.Before, Time.After,
    Bool.or_eq_true, decide_eq_true_eq]
  by_cases h1 : u.Start = 0 ∨ d < u.Start
  · rw [if_pos h1, if_pos h1]
    split <;> rfl
  · rw [if_neg h1, if_neg h1]
    split <;> rfl

theorem observeDate_some_End (u : UniqueMessage) (d : Time) :
    (u.observeDate (some d)).End = if u.End = 0 ∨ d > u.End then d else u.End := by
  simp only [UniqueMessage.observeDate, Time.IsZero, Time.Before, Time.After,
    Bool.or_eq_true, decide_eq_true_eq]
  by_cases h1 : u.Start = 0 ∨ d < u.Start
  · rw [if_pos h1]
    by_cases h2 : u.End = 0 ∨ d > u.End
    · rw [if_pos h2, if_pos h2]
    · rw [if_neg h2, if_neg h2]
  · rw [if_neg h1]
    by_cases h2 : u.End = 0 ∨ d > u.End
    · rw [if_pos h2, if_pos h2]
    · rw [if_neg h2, if_neg h2]

theorem observe_Start (u : UniqueMessage) (m : ReceivedMessage) (mail : MailMessage) :
    (u.observe P m mail).Start = (u.observeDate (mail.Header.Date P)).Start := rfl

theorem observe_End (u : UniqueMessage) (m : ReceivedMessage) (mail : MailMessage) :
    (u.observe P m mail).End = (u.observeDate (mail.Header.Date P)).End := rfl

theorem parsedDates_snoc (l : List ReceivedMessage) (m : ReceivedMessage) (mail : MailMessage)
    (h : m.Message = some mail) :
    parsedDates P (l ++ [m]) = parsedDates P l ++ (mail.Header.Date P).toList := by
  simp only [parsedDates, List.filterMap_append, List.filterMap_cons, List.filterMap_nil, h,
    Option.some_bind]
  cases mail.Header.Date P <;> rfl

theorem groupUnique_range (k : String) (msgs : List ReceivedMessage)
    (hmsg : ∀ m ∈ msgs, m.Message.isSome = true) (hnz : ∀ d ∈ parsedDates P msgs, d ≠ 0) :
    (parsedDates P msgs = [] →
        (groupUnique P k msgs).Start = 0 ∧ (groupUnique P k msgs).End = 0) ∧
      (parsedDates P msgs ≠ [] →
        (groupUnique P k msgs).Start ∈ parsedDates P msgs ∧
        (∀ d ∈ parsedDates P msgs, (groupUnique P k msgs).Start ≤ d) ∧
        (groupUnique P k msgs).End ∈ parsedDates P msgs ∧
        (∀ d ∈ parsedDates P msgs, d ≤ (groupUnique P k msgs).End)) := by
  induction msgs using List.reverseRecOn with
  | nil => exact ⟨fun _ => ⟨rfl, rfl⟩, fun h => absurd rfl h⟩
  | append_singleton l m ih =>
    obtain ⟨mail, hmail⟩ := Option.isSome_iff_exists.1 (hmsg m (by simp))
    have hds := parsedDates_snoc P l m mail hmail
    have hnz1 : ∀ d ∈ parsedDates P l, d ≠ 0 := by
      intro d hd
      apply hnz d
      rw [hds]
      exact List.mem_append_left _ hd
    obtain ⟨ih0, ih1⟩ := ih (fun x hx => hmsg x (List.mem_append_left _ hx)) hnz1
    rw [hds, groupUnique_snoc P k l m mail hmail, observe_Start, observe_End]
    cases hd : mail.Header.Date P with
    | none =>
      simp only [Option.toList_none, List.append_nil]
      exact ⟨ih0, ih1⟩
    | some d =>
      have hd0 : d ≠ 0 := by
        apply hnz d
        rw [hds, hd]
        simp
      rw [observeDate_some_Start, observeDate_some_End]
      simp only [Option.toList_some]
      refine ⟨fun h => by simp at h, fun _ => ?_⟩
      by_cases hl : parsedDates P l = []
      · obtain ⟨hs, he⟩ := ih0 hl
        rw [hl, hs, he]
        simp
      · obtain ⟨hs, hsle, he, hele⟩ := ih1 hl
        have hs0 := hnz1 _ hs
        have he0 := hnz1 _ he
        refine ⟨?_, ?_, ?_, ?_⟩
        · split
          · simp
          · exact List.mem_append_left _ hs
        · intro x hx
          rcases List.mem_append.1 hx with hx | hx
          · have := hsle x hx
            split
            · rename_i h1
              rcases h1 with h1 | h1
              · exact absurd h1 hs0
              · exact le_trans (le_of_lt h1) this
            · exact this
          · rw [List.mem_singleton] at hx
            subst hx
            split
            · exact le_refl _
            · rename_i h1
              exact le_of_not_lt (fun h => h1 (Or.inr h))
        · split
          · simp
          · exact List.mem_append_left _ he
        · intro x hx
          rcases List.mem_append.1 hx with hx | hx
          · have := hele x hx
            split
            · rename_i h1
              rcases h1 with h1 | h1
              · exact absurd h1 he0
              · exact le_trans this (le_of_lt h1)
            · exact this
          · rw [List.mem_singleton] at hx
            subst hx
            split
            · exact le_refl _
            · rename_i h1
              exact le_of_not_lt (fun h => h1 (Or.inr h))

end CompactLemmas

/-! ## Properties of `Compact` -/

theorem filter_Template_length (us : List UniqueMessage) (k : String)
    (hnd : (us.map (fun u => u.Template)).Nodup) (hin : k ∈ us.map (fun u => u.Template)) :
    (us.filter (fun u => u.Template == k)).length = 1 := by
  induction us with
  | nil => simp at hin
  | cons u us ih =>
    rw [List.map_cons, List.nodup_cons] at hnd
    by_cases hu : u.Template = k
    · have hnot : ∀ x ∈ us, ¬ (x.Template == k) = true := by
        intro x hx hxk
        rw [beq_iff_eq] at hxk
        exact hnd.1 (hu ▸ hxk ▸ List.mem_map_of_mem (fun u => u.Template) hx)
      rw [List.filter_cons, if_pos (by simpa using hu), List.length_cons,
        List.filter_eq_nil_iff.2 hnot]
      rfl
    · have hin1 : k ∈ us.map (fun u => u.Template) := by
        rcases List.mem_cons.1 hin with h1 | h1
        · exact absurd h1.symm hu
        · exact h1
      rw [List.filter_cons, if_neg (by simpa using hu)]
      exact ih hnd.2 hin1

/-- C6: for every classifier and every list of received messages that `Compact`
can process (each message has its parsed message and the classifier returns a key
for it), `Compact` returns a list holding exactly one unique message for each
distinct classification key and none for any other key; the templates are
pairwise distinct; and the unique messages stand in the order in which their keys
first occur in the input. -/
theorem Compact_one_unique_per_key_in_first_occurrence_order
    (ParseDate : String → Option Time) (group : GroupBy) (received : List ReceivedMessage)
    (h : Compactable group received) :
    ∃ uniques, Compact ParseDate group received = some uniques ∧
      (∀ k, (∃ m ∈ received, group m = some k) →
        (uniques.filter (fun u => u.Template == k)).length = 1) ∧
      (∀ u ∈ uniques, ∃ m ∈ received, group m = some u.Template) ∧
      (uniques.map (fun u => u.Template)).Nodup ∧
      (uniques.map (fun u => u.Template)).Pairwise
        (fun a b => firstIndex group a received < firstIndex group b received) := by
  obtain ⟨us, hus, hmem, hpw, _, _⟩ := Compact_spec ParseDate group received h
  have hnd : (us.map (fun u => u.Template)).Nodup :=
    List.Pairwise.imp (fun {a b} (hab : firstIndex group a received < firstIndex group b received)
      (heq : a = b) => Nat.ne_of_lt hab (by rw [heq])) hpw
  refine ⟨us, hus, ?_, ?_, hnd, hpw⟩
  · intro k hk
    exact filter_Template_length us k hnd ((hmem k).2 hk)
  · intro u hu
    exact (hmem u.Template).1 (List.mem_map_of_mem (fun u => u.Template) hu)

/-- C6, on three messages of two subjects. -/
theorem Compact_one_unique_per_key_in_first_occurrence_order_witness :
    ∃ uniques, Compact exampleParseDate exampleGroup exampleMessages = some uniques ∧
      (∀ k, (∃ m ∈ exampleMessages, exampleGroup m = some k) →
        (uniques.filter (fun u => u.Template == k)).length = 1) ∧
      (∀ u ∈ uniques, ∃ m ∈ exampleMessages, exampleGroup m = some u.Template) ∧
      (uniques.map (fun u => u.Template)).Nodup ∧
      (uniques.map (fun u => u.Template)).Pairwise
        (fun a b => firstIndex exampleGroup a exampleMessages
          < firstIndex exampleGroup b exampleMessages) :=
  Compact_one_unique_per_key_in_first_occurrence_order exampleParseDate exampleGroup
    exampleMessages (by decide)

/-- C7: for every classifier and every list of received messages that `Compact`
can process, every key occurring in the input has a unique message in the result,
the count of each unique message is the number of input messages whose
classification is its template, and the counts sum to the length of the input. -/
theorem Compact_count_is_number_of_classified_messages
    (ParseDate : String → Option Time) (group : GroupBy) (received : List ReceivedMessage)
    (h : Compactable group received) :
    ∃ uniques, Compact ParseDate group received = some uniques ∧
      (∀ k, (∃ m ∈ received, group m = some k) → ∃ u ∈ uniques, u.Template = k) ∧
      (∀ u ∈ uniques, u.Count = (classified group u.Template received).length) ∧
      (uniques.map (fun u => u.Count)).sum = received.length := by
  obtain ⟨us, hus, hmem, _, hcont, hsum⟩ := Compact_spec ParseDate group received h
  refine ⟨us, hus, ?_, ?_, hsum⟩
  · intro k hk
    obtain ⟨u, hu, huk⟩ := List.mem_map.1 ((hmem k).2 hk)
    exact ⟨u, hu, huk⟩
  · intro u hu
    have h1 := groupUnique_Count ParseDate u.Template (classified group u.Template received)
      (classified_Message group received h u.Template)
    rw [← hcont u hu] at h1
    exact h1

/-- C7, on three messages of two subjects. -/
theorem Compact_count_is_number_of_classified_messages_witness :
    ∃ uniques, Compact exampleParseDate exampleGroup exampleMessages = some uniques ∧
      (∀ k, (∃ m ∈ exampleMessages, exampleGroup m = some k) → ∃ u ∈ uniques, u.Template = k) ∧
      (∀ u ∈ uniques, u.Count = (classified exampleGroup u.Template exampleMessages).length) ∧
      (uniques.map (fun u => u.Count)).sum = exampleMessages.length :=
  Compact_count_is_number_of_classified_messages exampleParseDate exampleGroup
    exampleMessages (by decide)

/-- C8: for every classifier and every list of received messages that `Compact`
can process, every key occurring in the input has a unique message in the result,
and the body and subject of each unique message are the body and subject of the
last input message whose classification is its template; they are the same for
any other input in which the messages of that classification are the same, so the
messages of other keys do not change them. -/
theorem Compact_body_and_subject_of_last_message
    (ParseDate : String → Option Time) (group : GroupBy) (received : List ReceivedMessage)
    (h : Compactable group received) :
    ∃ uniques, Compact ParseDate group received = some uniques ∧
      (∀ k, (∃ m ∈ received, group m = some k) → ∃ u ∈ uniques, u.Template = k) ∧
      (∀ u ∈ uniques, ∃ m mail,
        (classified group u.Template received).getLast? = some m ∧
        m.Message = some mail ∧
        u.Body = m.Body.1 ∧ u.Subject = mail.Header.Get "subject") ∧
      (∀ received2 uniques2, Compact ParseDate group received2 = some uniques2 →
        ∀ u ∈ uniques, ∀ u2 ∈ uniques2, u2.Template = u.Template →
          classified group u.Template received2 = classified group u.Template received →
          u2.Body = u.Body ∧ u2.Subject = u.Subject) := by
  obtain ⟨us, hus, hmem, _, hcont, _⟩ := Compact_spec ParseDate group received h
  refine ⟨us, hus, ?_, ?_, ?_⟩
  · intro k hk
    obtain ⟨u, hu, huk⟩ := List.mem_map.1 ((hmem k).2 hk)
    exact ⟨u, hu, huk⟩
  · intro u hu
    obtain ⟨x, hx, hxk⟩ := (hmem u.Template).1 (List.mem_map_of_mem (fun u => u.Template) hu)
    have hne : classified group u.Template received ≠ [] := by
      intro hnil
      have : x ∈ classified group u.Template received :=
        List.mem_filter.2 ⟨hx, by simp [hxk]⟩
      rw [hnil] at this
      simp at this
    have hlast := List.getLast?_eq_getLast _ hne
    have hin := List.getLast_mem hne
    obtain ⟨mail, hmail⟩ := Option.isSome_iff_exists.1
      (classified_Message group received h u.Template _ hin)
    obtain ⟨hb, hs⟩ := groupUnique_last ParseDate u.Template _ _ mail hlast hmail
    rw [← hcont u hu] at hb hs
    exact ⟨_, mail, hlast, hmail, hb, hs⟩
  · intro received2 uniques2 h2 u hu u2 hu2 hT hc
    have e1 := hcont u hu
    have e2 := Compact_content ParseDate group received2 uniques2 h2 u2 hu2
    rw [hT, hc, ← e1] at e2
    rw [e2]
    exact ⟨rfl, rfl⟩

/-- C8, on three messages of two subjects. -/
theorem Compact_body_and_subject_of_last_message_witness :
    ∃ uniques, Compact exampleParseDate exampleGroup exampleMessages = some uniques ∧
      (∀ k, (∃ m ∈ exampleMessages, exampleGroup m = some k) → ∃ u ∈ uniques, u.Template = k) ∧
      (∀ u ∈ uniques, ∃ m mail,
        (classified exampleGroup u.Template exampleMessages).getLast? = some m ∧
        m.Message = some mail ∧
        u.Body = m.Body.1 ∧ u.Subject = mail.Header.Get "subject") ∧
      (∀ received2 uniques2, Compact exampleParseDate exampleGroup received2 = some uniques2 →
        ∀ u ∈ uniques, ∀ u2 ∈ uniques2, u2.Template = u.Template →
          classified exampleGroup u.Template received2
            = classified exampleGroup u.Template exampleMessages →
          u2.Body = u.Body ∧ u2.Subject = u.Subject) :=
  Compact_body_and_subject_of_last_message exampleParseDate exampleGroup exampleMessages
    (by decide)

/-- C9, as the claim states it, fails: of two messages of one key dated at the
zero time and later, in this order, the earliest date is the zero time, yet the
unique message starts at the later date; so it is not so that the start of every
unique message is at most every parsed date of its messages. -/
theorem Compact_start_not_earliest_after_zero_date :
    (Compact exampleParseDate exampleGroup zeroDatedMessages).map
        (fun uniques => uniques.map (fun u => (u.Template, u.Start, u.End)))
      = some [("disk full", 63524131200000000000, 63524131200000000000)] ∧
    parsedDates exampleParseDate (classified exampleGroup "disk full" zeroDatedMessages)
      = [0, 63524131200000000000] ∧
    ¬ (∀ uniques, Compact exampleParseDate exampleGroup zeroDatedMessages = some uniques →
        ∀ u ∈ uniques,
          ∀ d ∈ parsedDates exampleParseDate
            (classified exampleGroup u.Template zeroDatedMessages), u.Start ≤ d) := by
  have h1 : (Compact exampleParseDate exampleGroup zeroDatedMessages).map
      (fun uniques => uniques.map (fun u => (u.Template, u.Start, u.End)))
      = some [("disk full", 63524131200000000000, 63524131200000000000)] := by decide
  have h2 : parsedDates exampleParseDate
      (classified exampleGroup "disk full" zeroDatedMessages)
      = [0, 63524131200000000000] := by decide
  refine ⟨h1, h2, ?_⟩
  intro hall
  cases hc : Compact exampleParseDate exampleGroup zeroDatedMessages with
  | none =>
    rw [hc] at h1
    cases h1
  | some uniques =>
    rw [hc, Option.map_some', Option.some.injEq] at h1
    match uniques, h1, hall uniques hc with
    | [u], h1, hu =>
      simp only [List.map_cons, List.map_nil, List.cons.injEq, Prod.mk.injEq, and_true] at h1
      obtain ⟨hT, hS, _⟩ := h1
      have := hu u (List.mem_singleton_self u) 0 (by rw [hT, h2]; simp)
      rw [hS] at this
      exact absurd this (by decide)

/-- C9, amended: for every classifier and every list of received messages that
`Compact` can process and in which no date header parses to the zero time, the
start and the end of each unique message are the earliest and the latest of the
parsed dates of the messages whose classification is its template; the messages
with an absent or unparseable date do not count, and when no message of that
classification has a parsed date the start and the end are the zero time. -/
theorem Compact_start_end_of_nonzero_dates
    (ParseDate : String → Option Time) (group : GroupBy) (received : List ReceivedMessage)
    (h : Compactable group received) (hnz : ∀ d ∈ parsedDates ParseDate received, d ≠ 0) :
    ∃ uniques, Compact ParseDate group received = some uniques ∧
      ∀ u ∈ uniques,
        (parsedDates ParseDate (classified group u.Template received) = [] →
          u.Start = 0 ∧ u.End = 0) ∧
        (parsedDates ParseDate (classified group u.Template received) ≠ [] →
          u.Start ∈ parsedDates ParseDate (classified group u.Template received) ∧
          (∀ d ∈ parsedDates ParseDate (classified group u.Template received), u.Start ≤ d) ∧
          u.End ∈ parsedDates ParseDate (classified group u.Template received) ∧
          (∀ d ∈ parsedDates ParseDate (classified group u.Template received), d ≤ u.End)) := by
  obtain ⟨us, hus, _, _, hcont, _⟩ := Compact_spec ParseDate group received h
  refine ⟨us, hus, ?_⟩
  intro u hu
  have hsub : ∀ d ∈ parsedDates ParseDate (classified group u.Template received), d ≠ 0 := by
    intro d hd
    apply hnz d
    exact ((List.filter_sublist received).filterMap _).subset hd
  have hr := groupUnique_range ParseDate u.Template (classified group u.Template received)
    (classified_Message group received h u.Template) hsub
  rw [← hcont u hu] at hr
  exact hr

/-- C9 amended, on three messages of which one has a date that parses. -/
theorem Compact_start_end_of_nonzero_dates_witness :
    ∃ uniques, Compact exampleParseDate exampleGroup exampleMessages = some uniques ∧
      ∀ u ∈ uniques,
        (parsedDates exampleParseDate (classified exampleGroup u.Template exampleMessages) = [] →
          u.Start = 0 ∧ u.End = 0) ∧
        (parsedDates exampleParseDate (classified exampleGroup u.Template exampleMessages) ≠ [] →
          u.Start ∈ parsedDates exampleParseDate
            (classified exampleGroup u.Template exampleMessages) ∧
          (∀ d ∈ parsedDates exampleParseDate
            (classified exampleGroup u.Template exampleMessages), u.Start ≤ d) ∧
          u.End ∈ parsedDates exampleParseDate
            (classified exampleGroup u.Template exampleMessages) ∧
          (∀ d ∈ parsedDates exampleParseDate
            (classified exampleGroup u.Template exampleMessages), d ≤ u.End)) :=
  Compact_start_end_of_nonzero_dates exampleParseDate exampleGroup exampleMessages
    (by decide) (by decide)

/-! ## Lemmas on the recipients of a summary -/

theorem stringLess_iff (a b : String) : stringLess a b ↔ a < b :=
  String.lt_iff_toList_lt.symm

theorem not_stringLess_iff (a b : String) : ¬ stringLess b a ↔ a ≤ b :=
  (not_congr (stringLess_iff b a)).trans not_lt

theorem foldl_recipStep_mem (tos : List String) (acc : List String) (a : String) :
    a ∈ tos.foldl recipStep acc ↔ a ∈ acc ∨ a ∈ tos := by
  induction tos generalizing acc with
  | nil => simp
  | cons t tos ih =>
    rw [List.foldl_cons, ih]
    unfold recipStep
    by_cases ht : t ∈ acc
    · rw [if_pos ht]
      constructor
      · rintro (h | h)
        · exact Or.inl h
        · exact Or.inr (List.mem_cons_of_mem _ h)
      · rintro (h | h)
        · exact Or.inl h
        · rcases List.mem_cons.1 h with h | h
          · exact Or.inl (h ▸ ht)
          · exact Or.inr h
    · rw [if_neg ht]
      simp only [List.mem_append, List.mem_singleton, List.mem_cons]
      tauto

theorem foldl_recipStep_nodup (tos : List String) (acc : List String) (h : acc.Nodup) :
    (tos.foldl recipStep acc).Nodup := by
  induction tos generalizing acc with
  | nil => exact h
  | cons t tos ih =>
    rw [List.foldl_cons]
    apply ih
    unfold recipStep
    by_cases ht : t ∈ acc
    · rw [if_pos ht]
      exact h
    · rw [if_neg ht]
      exact List.Nodup.append h (List.nodup_singleton t) (by simpa using ht)

theorem foldl_collect_mem (received : List ReceivedMessage) (acc : List String) (a : String) :
    a ∈ received.foldl (fun recips msg => msg.To.foldl recipStep recips) acc
      ↔ a ∈ acc ∨ ∃ m ∈ received, a ∈ m.To := by
  induction received generalizing acc with
  | nil => simp
  | cons m l ih =>
    rw [List.foldl_cons, ih, foldl_recipStep_mem]
    simp only [List.mem_cons, exists_eq_or_imp]
    tauto

theorem foldl_collect_nodup (received : List ReceivedMessage) (acc : List String)
    (h : acc.Nodup) :
    (received.foldl (fun recips msg => msg.To.foldl recipStep recips) acc).Nodup := by
  induction received generalizing acc with
  | nil => exact h
  | cons m l ih =>
    rw [List.foldl_cons]
    exact ih _ (foldl_recipStep_nodup m.To acc h)

theorem collectRecipients_mem (received : List ReceivedMessage) (a : String) :
    a ∈ collectRecipients received ↔ ∃ m ∈ received, a ∈ m.To := by
  unfold collectRecipients
  rw [foldl_collect_mem]
  simp

theorem collectRecipients_nodup (received : List ReceivedMessage) :
    (collectRecipients received).Nodup :=
  foldl_collect_nodup received [] List.nodup_nil

theorem sortStrings_perm (l : List String) : (sortStrings l).Perm l :=
  List.perm_insertionSort _ l

theorem sortStrings_sorted (l : List String) (h : l.Nodup) :
    (sortStrings l).Sorted stringLess := by
  have htotal : IsTotal String (fun a b => ¬ stringLess b a) :=
    ⟨fun a b => by
      rw [not_stringLess_iff, not_stringLess_iff]
      exact le_total a b⟩
  have htrans : IsTrans String (fun a b => ¬ stringLess b a) :=
    ⟨fun a b c hab hbc => by
      rw [not_stringLess_iff] at hab hbc ⊢
      exact le_trans hab hbc⟩
  have hs : (sortStrings l).Sorted (fun a b => ¬ stringLess b a) :=
    List.sorted_insertionSort _ l
  have hnd : (sortStrings l).Nodup := (sortStrings_perm l).nodup_iff.2 h
  have := List.Pairwise.and hs hnd
  refine this.imp ?_
  rintro a b ⟨hab, hne⟩
  rw [not_stringLess_iff] at hab
  rw [stringLess_iff]
  exact lt_of_le_of_ne hab hne

theorem sortStrings_eq_of_mem_iff (l1 l2 : List String) (h1 : l1.Nodup) (h2 : l2.Nodup)
    (h : ∀ a, a ∈ l1 ↔ a ∈ l2) : sortStrings l1 = sortStrings l2 := by
  have hanti : IsAntisymm String stringLess :=
    ⟨fun a b hab hba => by
      rw [stringLess_iff] at hab hba
      exact absurd hab (lt_asymm hba)⟩
  have hp : (sortStrings l1).Perm (sortStrings l2) :=
    ((sortStrings_perm l1).trans ((List.perm_ext_iff_of_nodup h1 h2).2 h)).trans
      (sortStrings_perm l2).symm
  exact List.eq_of_perm_of_sorted hp (sortStrings_sorted l1 h1) (sortStrings_sorted l2 h2)

theorem Summarize_eq (P : String → Option Time) (group : GroupBy) (date : Time) (sender : String)
    (received : List ReceivedMessage) (s : SummaryMessage)
    (h : Summarize P group date sender received = some s) :
    ∃ uniques, Compact P group received = some uniques ∧
      s = { From := sender
            To := sortStrings (collectRecipients received)
            Subject := "[failmail] " ++ Plural received.length "message" "messages"
            Date := date
            ReceivedMessages := received
            UniqueMessages := uniques } := by
  unfold Summarize at h
  cases hc : Compact P group received with
  | none => simp [hc] at h
  | some us =>
    simp only [hc, Option.some.injEq] at h
    exact ⟨us, rfl, h.symm⟩

theorem Summarize_some (P : String → Option Time) (group : GroupBy) (date : Time)
    (sender : String) (received : List ReceivedMessage) (h : Compactable group received) :
    ∃ s, Summarize P group date sender received = some s := by
  obtain ⟨us, hus, _⟩ := Compact_spec P group received h
  unfold Summarize
  simp [hus]

/-! ## Properties of `Summarize` -/

theorem recipients_mem_congr (received l received2 : List ReceivedMessage)
    (hp : received.Perm l) (hf : List.Forall₂ (fun m m2 => m.To.Perm m2.To) l received2)
    (a : String) : (∃ m ∈ received, a ∈ m.To) ↔ ∃ m ∈ received2, a ∈ m.To := by
  have h1 : (∃ m ∈ received, a ∈ m.To) ↔ ∃ m ∈ l, a ∈ m.To := by
    constructor
    · rintro ⟨m, hm, ha⟩
      exact ⟨m, hp.subset hm, ha⟩
    · rintro ⟨m, hm, ha⟩
      exact ⟨m, hp.symm.subset hm, ha⟩
  rw [h1]
  clear h1 hp
  induction hf with
  | nil => simp
  | cons hab _ ih =>
    simp only [List.mem_cons, exists_eq_or_imp, ih, hab.mem_iff]

/-- C10: for every list of received messages that `Summarize` can process, the
`To` of the summary is strictly ascending in the lexicographic order of strings
(sorted, nothing twice); it holds an address exactly when some input message has
that address among its recipients; and it is the same for every input obtained by
permuting the messages and the recipients of each message. -/
theorem Summarize_To_sorted_deduplicated_union
    (ParseDate : String → Option Time) (group : GroupBy) (date : Time) (sender : String)
    (received : List ReceivedMessage) (h : Compactable group received) :
    ∃ s, Summarize ParseDate group date sender received = some s ∧
      s.To.Sorted stringLess ∧
      (∀ a, a ∈ s.To ↔ ∃ m ∈ received, a ∈ m.To) ∧
      (∀ l received2 group2 date2 sender2 s2, received.Perm l →
        List.Forall₂ (fun m m2 => m.To.Perm m2.To) l received2 →
        Summarize ParseDate group2 date2 sender2 received2 = some s2 → s2.To = s.To) := by
  obtain ⟨s, hs⟩ := Summarize_some ParseDate group date sender received h
  obtain ⟨us, _, hs1⟩ := Summarize_eq ParseDate group date sender received s hs
  have hTo : s.To = sortStrings (collectRecipients received) := by rw [hs1]
  refine ⟨s, hs, ?_, ?_, ?_⟩
  · rw [hTo]
    exact sortStrings_sorted _ (collectRecipients_nodup received)
  · intro a
    rw [hTo, (sortStrings_perm _).mem_iff, collectRecipients_mem]
  · intro l received2 group2 date2 sender2 s2 hp hf h2
    obtain ⟨us2, _, hs2⟩ := Summarize_eq ParseDate group2 date2 sender2 received2 s2 h2
    have hTo2 : s2.To = sortStrings (collectRecipients received2) := by rw [hs2]
    rw [hTo, hTo2]
    apply sortStrings_eq_of_mem_iff _ _ (collectRecipients_nodup _) (collectRecipients_nodup _)
    intro a
    rw [collectRecipients_mem, collectRecipients_mem]
    exact (recipients_mem_congr received l received2 hp hf a).symm

/-- C10, on three messages naming three recipients five times in all. -/
theorem Summarize_To_sorted_deduplicated_union_witness :
    ∃ s, Summarize exampleParseDate exampleGroup 0 "failmail@example.com" exampleMessages
        = some s ∧
      s.To.Sorted stringLess ∧
      (∀ a, a ∈ s.To ↔ ∃ m ∈ exampleMessages, a ∈ m.To) ∧
      (∀ l received2 group2 date2 sender2 s2, exampleMessages.Perm l →
        List.Forall₂ (fun m m2 => m.To.Perm m2.To) l received2 →
        Summarize exampleParseDate group2 date2 sender2 received2 = some s2 → s2.To = s.To) :=
  Summarize_To_sorted_deduplicated_union exampleParseDate exampleGroup 0
    "failmail@example.com" exampleMessages (by decide)

/-! ## Lemmas on the message buffer -/

section BufferLemmas

variable (P : String → Option Time) (clock : Nat → Time) (sender : String)

theorem keeps_congr (b1 b2 : MessageBuffer) (now : Time) (k : String)
    (hf : b1.first.lookup k = b2.first.lookup k) (hl : b1.last.lookup k = b2.last.lookup k)
    (hH : b1.HardLimit = b2.HardLimit) (hS : b1.SoftLimit = b2.SoftLimit) :
    b1.keeps now k = b2.keeps now k := by
  simp only [MessageBuffer.keeps, GoMap.get, hf, hl, hH, hS]

theorem remove_lookup_ne (b : MessageBuffer) {key k : String} (h : k ≠ key) :
    (b.remove key).first.lookup k = b.first.lookup k ∧
    (b.remove key).last.lookup k = b.last.lookup k ∧
    (b.remove key).messages.lookup k = b.messages.lookup k :=
  ⟨GoMap.lookup_delete_ne _ h, GoMap.lookup_delete_ne _ h, GoMap.lookup_delete_ne _ h⟩

theorem remove_lookup_self (b : MessageBuffer) (key : String) :
    (b.remove key).first.lookup key = none ∧
    (b.remove key).last.lookup key = none ∧
    (b.remove key).messages.lookup key = none :=
  ⟨GoMap.lookup_delete_self _ _, GoMap.lookup_delete_self _ _, GoMap.lookup_delete_self _ _⟩

theorem keeps_remove_ne (b : MessageBuffer) (now : Time) {key k : String} (h : k ≠ key) :
    (b.remove key).keeps now k = b.keeps now k :=
  keeps_congr _ _ now k (remove_lookup_ne b h).1 (remove_lookup_ne b h).2.1 rfl rfl

/-- The outcomes of one turn of the loop of `Flush`. -/
theorem flushStep_cases (st : FlushState) (e : String × List ReceivedMessage) :
    (flushStep P clock sender st e = st ∧
        (st.panicked = true ∨ st.buffer.keeps (clock 0) e.1 = true)) ∨
    (st.panicked = false ∧ st.buffer.keeps (clock 0) e.1 = false ∧
        Summarize P st.buffer.Group (clock (st.summaries.length + 1)) sender e.2 = none ∧
        flushStep P clock sender st e = { st with panicked := true }) ∨
    (st.panicked = false ∧ st.buffer.keeps (clock 0) e.1 = false ∧
        ∃ s, Summarize P st.buffer.Group (clock (st.summaries.length + 1)) sender e.2 = some s ∧
        flushStep P clock sender st e =
          { buffer := st.buffer.remove e.1, summaries := st.summaries ++ [s],
            panicked := false }) := by
  unfold flushStep
  cases hp : st.panicked with
  | true => exact Or.inl ⟨by simp, Or.inl rfl⟩
  | false =>
    cases hk : st.buffer.keeps (clock 0) e.1 with
    | true => exact Or.inl ⟨by simp, Or.inr rfl⟩
    | false =>
      cases hs : Summarize P st.buffer.Group (clock (st.summaries.length + 1)) sender e.2 with
      | none => exact Or.inr (Or.inl ⟨rfl, rfl, rfl, by simp⟩)
      | some s => exact Or.inr (Or.inr ⟨rfl, rfl, s, rfl, by simp⟩)

theorem flush_fold (b : MessageBuffer) (rest : List (String × List ReceivedMessage))
    (st : FlushState) (hnd : (rest.map Prod.fst).Nodup)
    (hagree : ∀ e ∈ rest, st.buffer.keeps (clock 0) e.1 = b.keeps (clock 0) e.1)
    (hG : st.buffer.Group = b.Group) :
    ((rest.foldl (flushStep P clock sender) st).buffer.SoftLimit = st.buffer.SoftLimit ∧
      (rest.foldl (flushStep P clock sender) st).buffer.HardLimit = st.buffer.HardLimit ∧
      (rest.foldl (flushStep P clock sender) st).buffer.Batch = st.buffer.Batch ∧
      (rest.foldl (flushStep P clock sender) st).buffer.Group = st.buffer.Group) ∧
    (∀ k, (k ∉ rest.map Prod.fst ∨ b.keeps (clock 0) k = true) →
      (rest.foldl (flushStep P clock sender) st).buffer.first.lookup k
        = st.buffer.first.lookup k ∧
      (rest.foldl (flushStep P clock sender) st).buffer.last.lookup k
        = st.buffer.last.lookup k ∧
      (rest.foldl (flushStep P clock sender) st).buffer.messages.lookup k
        = st.buffer.messages.lookup k) ∧
    (∀ s ∈ st.summaries, s ∈ (rest.foldl (flushStep P clock sender) st).summaries) ∧
    (∀ s ∈ (rest.foldl (flushStep P clock sender) st).summaries,
      s ∈ st.summaries ∨
      ∃ e ∈ rest, b.keeps (clock 0) e.1 = false ∧
        ∃ d, Summarize P b.Group d sender e.2 = some s) ∧
    (st.panicked = true → (rest.foldl (flushStep P clock sender) st).panicked = true) ∧
    ((rest.foldl (flushStep P clock sender) st).panicked = false →
      ∀ e ∈ rest, b.keeps (clock 0) e.1 = false →
        (∃ d, ∃ s ∈ (rest.foldl (flushStep P clock sender) st).summaries,
          Summarize P b.Group d sender e.2 = some s) ∧
        (rest.foldl (flushStep P clock sender) st).buffer.first.lookup e.1 = none ∧
        (rest.foldl (flushStep P clock sender) st).buffer.last.lookup e.1 = none ∧
        (rest.foldl (flushStep P clock sender) st).buffer.messages.lookup e.1 = none) ∧
    (st.panicked = false →
      (∀ e ∈ rest, b.keeps (clock 0) e.1 = false → Compactable b.Group e.2) →
      (rest.foldl (flushStep P clock sender) st).panicked = false) := by
  induction rest generalizing st with
  | nil =>
    refine ⟨⟨rfl, rfl, rfl, rfl⟩, fun _ _ => ⟨rfl, rfl, rfl⟩, fun s hs => hs,
      fun s hs => Or.inl hs, fun h => h, ?_, fun h _ => h⟩
    intro _ e he
    simp at he
  | cons e rest ih =>
    rw [List.map_cons, List.nodup_cons] at hnd
    have hne : ∀ e1 ∈ rest, e1.1 ≠ e.1 := by
      intro e1 he1 heq
      exact hnd.1 (heq ▸ List.mem_map_of_mem Prod.fst he1)
    have hke : st.buffer.keeps (clock 0) e.1 = b.keeps (clock 0) e.1 :=
      hagree e (List.mem_cons_self _ _)
    simp only [List.foldl_cons]
    rcases flushStep_cases P clock sender st e with ⟨hstep, hwhy⟩ | ⟨hp, hk, hsum, hstep⟩ |
      ⟨hp, hk, s, hsum, hstep⟩
    · rw [hstep]
      obtain ⟨i1, i2, i3, i4, i5, i6, i7⟩ :=
        ih st hnd.2 (fun e1 he1 => hagree e1 (List.mem_cons_of_mem _ he1)) hG
      refine ⟨i1, ?_, i3, ?_, i5, ?_, ?_⟩
      · intro k hk
        apply i2 k
        rcases hk with hk | hk
        · exact Or.inl (fun h => hk (List.mem_cons_of_mem _ h))
        · exact Or.inr hk
      · intro s hs
        rcases i4 s hs with h | ⟨e1, he1, h⟩
        · exact Or.inl h
        · exact Or.inr ⟨e1, List.mem_cons_of_mem _ he1, h⟩
      · intro hfin e1 he1 hk1
        rcases List.mem_cons.1 he1 with heq | hin
        · subst heq
          rcases hwhy with hw | hw
          · rw [i5 hw] at hfin
            cases hfin
          · rw [hke, hk1] at hw
            cases hw
        · exact i6 hfin e1 hin hk1
      · intro hp hc
        exact i7 hp (fun e1 he1 => hc e1 (List.mem_cons_of_mem _ he1))
    · rw [hstep]
      obtain ⟨i1, i2, i3, i4, i5, i6, i7⟩ :=
        ih { st with panicked := true } hnd.2
          (fun e1 he1 => hagree e1 (List.mem_cons_of_mem _ he1)) hG
      refine ⟨i1, ?_, i3, ?_, fun _ => i5 rfl, ?_, ?_⟩
      · intro k hk
        apply i2 k
        rcases hk with hk | hk
        · exact Or.inl (fun h => hk (List.mem_cons_of_mem _ h))
        · exact Or.inr hk
      · intro s hs
        rcases i4 s hs with h | ⟨e1, he1, h⟩
        · exact Or.inl h
        · exact Or.inr ⟨e1, List.mem_cons_of_mem _ he1, h⟩
      · intro hfin
        rw [i5 rfl] at hfin
        cases hfin
      · intro _ hc
        have hcomp := hc e (List.mem_cons_self _ _) (hke ▸ hk)
        obtain ⟨s, hs⟩ := Summarize_some P b.Group
          (clock (st.summaries.length + 1)) sender e.2 hcomp
        rw [hG, hs] at hsum
        cases hsum
    · rw [hstep]
      obtain ⟨i1, i2, i3, i4, i5, i6, i7⟩ :=
        ih { buffer := st.buffer.remove e.1, summaries := st.summaries ++ [s],
             panicked := false } hnd.2
          (fun e1 he1 => by
            rw [keeps_remove_ne st.buffer (clock 0) (hne e1 he1)]
            exact hagree e1 (List.mem_cons_of_mem _ he1)) hG
      have hkb : b.keeps (clock 0) e.1 = false := hke ▸ hk
      refine ⟨i1, ?_, ?_, ?_, ?_, ?_, ?_⟩
      · intro k hk1
        have hkne : k ≠ e.1 := by
          rcases hk1 with h | h
          · exact fun heq => h (heq ▸ List.mem_cons_self _ _)
          · intro heq
            rw [heq, hkb] at h
            cases h
        have hk2 : k ∉ rest.map Prod.fst ∨ b.keeps (clock 0) k = true := by
          rcases hk1 with h | h
          · exact Or.inl (fun h1 => h (List.mem_cons_of_mem _ h1))
          · exact Or.inr h
        obtain ⟨f1, f2, f3⟩ := i2 k hk2
        obtain ⟨r1, r2, r3⟩ := remove_lookup_ne st.buffer hkne
        exact ⟨f1.trans r1, f2.trans r2, f3.trans r3⟩
      · intro s0 hs0
        exact i3 s0 (List.mem_append_left _ hs0)
      · intro s0 hs0
        rcases i4 s0 hs0 with h | ⟨e1, he1, h⟩
        · rcases List.mem_append.1 h with h | h
          · exact Or.inl h
          · rw [List.mem_singleton] at h
            subst h
            exact Or.inr ⟨e, List.mem_cons_self _ _, hkb, _, hG ▸ hsum⟩
        · exact Or.inr ⟨e1, List.mem_cons_of_mem _ he1, h⟩
      · intro h
        rw [hp] at h
        cases h
      · intro hfin e1 he1 hk1
        rcases List.mem_cons.1 he1 with heq | hin
        · subst heq
          obtain ⟨f1, f2, f3⟩ := i2 e1.1 (Or.inl hnd.1)
          obtain ⟨r1, r2, r3⟩ := remove_lookup_self st.buffer e1.1
          exact ⟨⟨_, s, i3 s (List.mem_append_right _ (List.mem_singleton_self s)),
            hG ▸ hsum⟩, f1.trans r1, f2.trans r2, f3.trans r3⟩
        · exact i6 hfin e1 hin hk1
      · intro _ hc
        exact i7 rfl (fun e1 he1 => hc e1 (List.mem_cons_of_mem _ he1))

theorem keeps_eq_false_iff (b : MessageBuffer) (now : Time) (k : String) :
    b.keeps now k = false ↔
      (b.HardLimit ≤ now.Sub (b.first.get k 0) ∨ b.SoftLimit ≤ now.Sub (b.last.get k 0)) := by
  simp only [MessageBuffer.keeps, Bool.and_eq_false_iff, decide_eq_false_iff_not, not_lt]

theorem keeps_eq_true_iff (b : MessageBuffer) (now : Time) (k : String) :
    b.keeps now k = true ↔
      (now.Sub (b.first.get k 0) < b.HardLimit ∧ now.Sub (b.last.get k 0) < b.SoftLimit) := by
  simp only [MessageBuffer.keeps, Bool.and_eq_true, decide_eq_true_eq]

/-- What `flush_fold` says of a whole call of `Flush`. -/
theorem Flush_spec (b : MessageBuffer) :
    ((Flush P b clock sender).1.SoftLimit = b.SoftLimit ∧
      (Flush P b clock sender).1.HardLimit = b.HardLimit ∧
      (Flush P b clock sender).1.Batch = b.Batch ∧
      (Flush P b clock sender).1.Group = b.Group) ∧
    (∀ k, (b.messages.lookup k = none ∨ b.keeps (clock 0) k = true) →
      (Flush P b clock sender).1.first.lookup k = b.first.lookup k ∧
      (Flush P b clock sender).1.last.lookup k = b.last.lookup k ∧
      (Flush P b clock sender).1.messages.lookup k = b.messages.lookup k) ∧
    (∀ sums, (Flush P b clock sender).2 = some sums → ∀ s ∈ sums,
      ∃ k msgs d, b.messages.lookup k = some msgs ∧ b.keeps (clock 0) k = false ∧
        Summarize P b.Group d sender msgs = some s) ∧
    (∀ sums, (Flush P b clock sender).2 = some sums →
      ∀ k msgs, b.messages.lookup k = some msgs → b.keeps (clock 0) k = false →
        (∃ d, ∃ s ∈ sums, Summarize P b.Group d sender msgs = some s) ∧
        (Flush P b clock sender).1.first.lookup k = none ∧
        (Flush P b clock sender).1.last.lookup k = none ∧
        (Flush P b clock sender).1.messages.lookup k = none) ∧
    ((∀ k msgs, b.messages.lookup k = some msgs → b.keeps (clock 0) k = false →
        Compactable b.Group msgs) →
      ∃ sums, (Flush P b clock sender).2 = some sums) := by
  obtain ⟨i1, i2, _, i4, _, i6, i7⟩ :=
    flush_fold P clock sender b b.messages.entries ⟨b, [], false⟩ b.messages.nodup
      (fun _ _ => rfl) rfl
  have hres : ∀ sums, (Flush P b clock sender).2 = some sums →
      (b.messages.entries.foldl (flushStep P clock sender) ⟨b, [], false⟩).panicked = false ∧
      sums = (b.messages.entries.foldl (flushStep P clock sender) ⟨b, [], false⟩).summaries := by
    intro sums h
    simp only [Flush] at h
    cases hp : (b.messages.entries.foldl (flushStep P clock sender) ⟨b, [], false⟩).panicked with
    | true => simp [hp] at h
    | false =>
      simp only [hp, Bool.false_eq_true, if_false, Option.some.injEq] at h
      exact ⟨rfl, h.symm⟩
  refine ⟨i1, ?_, ?_, ?_, ?_⟩
  · intro k hk
    apply i2 k
    rcases hk with hk | hk
    · left
      intro hmem
      obtain ⟨e, he, hek⟩ := List.mem_map.1 hmem
      have := b.messages.lookup_of_mem (k := e.1) (v := e.2) he
      rw [hek, hk] at this
      cases this
    · exact Or.inr hk
  · intro sums hsums s hs
    obtain ⟨_, rfl⟩ := hres sums hsums
    rcases i4 s hs with h | ⟨e, he, hk, d, hd⟩
    · simp at h
    · exact ⟨e.1, e.2, d, b.messages.lookup_of_mem he, hk, hd⟩
  · intro sums hsums k msgs hl hk
    obtain ⟨hp, rfl⟩ := hres sums hsums
    exact i6 hp (k, msgs) (b.messages.mem_of_lookup hl) hk
  · intro hc
    have hp := i7 rfl (fun e he hk => hc e.1 e.2 (b.messages.lookup_of_mem he) hk)
    refine ⟨(b.messages.entries.foldl (flushStep P clock sender) ⟨b, [], false⟩).summaries, ?_⟩
    simp only [Flush, hp, Bool.false_eq_true, if_false]

theorem Add_eq (b : MessageBuffer) (now : Time) (msg : ReceivedMessage) (k : String)
    (hk : b.Batch msg = some k) :
    ∃ b1, Add b now msg = some b1 ∧
      b1.SoftLimit = b.SoftLimit ∧ b1.HardLimit = b.HardLimit ∧
      b1.Batch = b.Batch ∧ b1.Group = b.Group ∧
      b1.first.lookup k = some ((b.first.lookup k).getD now) ∧
      b1.last.lookup k = some now ∧
      b1.messages.lookup k
        = some ((if b.first.contains k then b.messages.get k [] else []) ++ [msg]) ∧
      (∀ k1, k1 ≠ k →
        b1.first.lookup k1 = b.first.lookup k1 ∧
        b1.last.lookup k1 = b.last.lookup k1 ∧
        b1.messages.lookup k1 = b.messages.lookup k1) := by
  unfold Add
  simp only [hk]
  refine ⟨_, rfl, ?_⟩
  cases hc : b.first.contains k with
  | true =>
    simp only [if_true, GoMap.lookup_set_self]
    refine ⟨trivial, trivial, trivial, trivial, ?_, trivial, trivial, ?_⟩
    · simp only [GoMap.contains, Option.isSome_iff_exists] at hc
      obtain ⟨t, ht⟩ := hc
      simp [ht]
    · intro k1 hk1
      exact ⟨trivial, GoMap.lookup_set_ne _ _ hk1, GoMap.lookup_set_ne _ _ hk1⟩
  | false =>
    simp only [Bool.false_eq_true, if_false, GoMap.lookup_set_self, GoMap.get,
      Option.getD_some, List.nil_append]
    refine ⟨trivial, trivial, trivial, trivial, ?_, trivial, trivial, ?_⟩
    · have : b.first.lookup k = none := by
        simpa [GoMap.contains] using hc
      simp [this]
    · intro k1 hk1
      refine ⟨GoMap.lookup_set_ne _ _ hk1, GoMap.lookup_set_ne _ _ hk1, ?_⟩
      rw [GoMap.lookup_set_ne _ _ hk1, GoMap.lookup_set_ne _ _ hk1]

theorem flush_fold_preserves (Q : MessageBuffer → Prop)
    (hQ : ∀ b k, Q b → Q (b.remove k)) (rest : List (String × List ReceivedMessage))
    (st : FlushState) (h : Q st.buffer) :
    Q (rest.foldl (flushStep P clock sender) st).buffer := by
  induction rest generalizing st with
  | nil => exact h
  | cons e rest ih =>
    rw [List.foldl_cons]
    apply ih
    rcases flushStep_cases P clock sender st e with ⟨hstep, _⟩ | ⟨_, _, _, hstep⟩ |
      ⟨_, _, s, _, hstep⟩
    · rw [hstep]
      exact h
    · rw [hstep]
      exact h
    · rw [hstep]
      exact hQ _ _ h

theorem Invariant_new (softLimit hardLimit : Duration) (batch group : GroupBy) :
    (NewMessageBuffer softLimit hardLimit batch group).Invariant := by
  intro k
  simp [NewMessageBuffer, GoMap.contains, GoMap.get, GoMap.lookup_empty]

theorem Invariant_remove (b : MessageBuffer) (key : String) (h : b.Invariant) :
    (b.remove key).Invariant := by
  intro k
  by_cases hk : k = key
  · subst hk
    obtain ⟨r1, r2, r3⟩ := remove_lookup_self b k
    simp [GoMap.contains, GoMap.get, r1, r2, r3]
  · obtain ⟨r1, r2, r3⟩ := remove_lookup_ne b hk
    have := h k
    simp only [GoMap.contains, GoMap.get, r1, r2, r3] at this ⊢
    exact this

theorem Invariant_Flush (b : MessageBuffer) (h : b.Invariant) :
    (Flush P b clock sender).1.Invariant :=
  flush_fold_preserves P clock sender MessageBuffer.Invariant Invariant_remove
    b.messages.entries ⟨b, [], false⟩ h

theorem Invariant_Add (b b1 : MessageBuffer) (now : Time) (msg : ReceivedMessage)
    (h : b.Invariant) (hadd : Add b now msg = some b1) : b1.Invariant := by
  cases hk : b.Batch msg with
  | none => simp [Add, hk] at hadd
  | some key =>
    obtain ⟨b2, h2, _, _, _, _, hf, hl, hm, hother⟩ := Add_eq b now msg key hk
    rw [hadd, Option.some.injEq] at h2
    subst h2
    intro k
    by_cases hkk : k = key
    · subst hkk
      simp [GoMap.contains, GoMap.get, hf, hl, hm]
    · obtain ⟨r1, r2, r3⟩ := hother k hkk
      have := h k
      simp only [GoMap.contains, GoMap.get, r1, r2, r3] at this ⊢
      exact this

theorem Invariant_of_Reachable (b : MessageBuffer) (h : Reachable P b) : b.Invariant := by
  induction h with
  | new softLimit hardLimit batch group => exact Invariant_new softLimit hardLimit batch group
  | add now msg _ hadd ih => exact Invariant_Add _ _ now msg ih hadd
  | flush clock sender _ ih => exact Invariant_Flush P clock sender _ ih

end BufferLemmas

/-! ## Properties of the message buffer -/

/-- C1: for every buffer state, every time `now` (the first reading of the clock
in the call) and every key for which `now - firstSeen < HardLimit` and
`now - lastSeen < SoftLimit` both hold, `Flush` leaves the `first`, `last` and
`messages` records of the key exactly as they were, and every summary it returns
is built from the messages of another key, one for which the two inequalities do
not both hold. -/
theorem Flush_does_not_flush_a_fresh_key
    (ParseDate : String → Option Time) (b : MessageBuffer) (clock : Nat → Time)
    (sender : String) (k : String)
    (hhard : (clock 0).Sub (b.first.get k 0) < b.HardLimit)
    (hsoft : (clock 0).Sub (b.last.get k 0) < b.SoftLimit) :
    (Flush ParseDate b clock sender).1.first.lookup k = b.first.lookup k ∧
    (Flush ParseDate b clock sender).1.last.lookup k = b.last.lookup k ∧
    (Flush ParseDate b clock sender).1.messages.lookup k = b.messages.lookup k ∧
    ∀ summaries, (Flush ParseDate b clock sender).2 = some summaries →
      ∀ s ∈ summaries, ∃ k1 msgs1 date,
        k1 ≠ k ∧ b.messages.lookup k1 = some msgs1 ∧
        ¬ ((clock 0).Sub (b.first.get k1 0) < b.HardLimit ∧
            (clock 0).Sub (b.last.get k1 0) < b.SoftLimit) ∧
        Summarize ParseDate b.Group date sender msgs1 = some s ∧
        s.ReceivedMessages = msgs1 := by
  have hkeep : b.keeps (clock 0) k = true := (keeps_eq_true_iff b (clock 0) k).2 ⟨hhard, hsoft⟩
  obtain ⟨_, hframe, hprov, _, _⟩ := Flush_spec ParseDate clock sender b
  obtain ⟨f1, f2, f3⟩ := hframe k (Or.inr hkeep)
  refine ⟨f1, f2, f3, ?_⟩
  intro summaries hs s hsmem
  obtain ⟨k1, msgs1, date, hl, hk1, hsum⟩ := hprov summaries hs s hsmem
  obtain ⟨_, _, heq⟩ := Summarize_eq ParseDate b.Group date sender msgs1 s hsum
  refine ⟨k1, msgs1, date, ?_, hl, ?_, hsum, by rw [heq]⟩
  · intro h
    rw [h, hkeep] at hk1
    cases hk1
  · intro h
    rw [(keeps_eq_true_iff b (clock 0) k1).2 h] at hk1
    cases hk1

/-- C1, on a buffer of two batches flushed at time 1310: the batch of subject
"job failed", last added to at time 1290, stays. -/
theorem Flush_does_not_flush_a_fresh_key_witness :
    (Flush exampleParseDate exampleBufferTwo exampleClock "failmail@example.com").1.first.lookup
        "job failed" = exampleBufferTwo.first.lookup "job failed" ∧
    (Flush exampleParseDate exampleBufferTwo exampleClock "failmail@example.com").1.last.lookup
        "job failed" = exampleBufferTwo.last.lookup "job failed" ∧
    (Flush exampleParseDate exampleBufferTwo exampleClock
        "failmail@example.com").1.messages.lookup "job failed"
      = exampleBufferTwo.messages.lookup "job failed" ∧
    ∀ summaries,
      (Flush exampleParseDate exampleBufferTwo exampleClock "failmail@example.com").2
        = some summaries →
      ∀ s ∈ summaries, ∃ k1 msgs1 date,
        k1 ≠ "job failed" ∧ exampleBufferTwo.messages.lookup k1 = some msgs1 ∧
        ¬ ((exampleClock 0).Sub (exampleBufferTwo.first.get k1 0) < exampleBufferTwo.HardLimit ∧
            (exampleClock 0).Sub (exampleBufferTwo.last.get k1 0)
              < exampleBufferTwo.SoftLimit) ∧
        Summarize exampleParseDate exampleBufferTwo.Group date "failmail@example.com" msgs1
          = some s ∧
        s.ReceivedMessages = msgs1 :=
  Flush_does_not_flush_a_fresh_key exampleParseDate exampleBufferTwo exampleClock
    "failmail@example.com" "job failed" (by decide) (by decide)

/-- C2: for every buffer state all of whose batches `Summarize` can process,
every time `now` and every buffered key with `now - firstSeen ≥ HardLimit`,
however recent its `lastSeen`, or with `now - lastSeen ≥ SoftLimit`, `Flush`
returns, one of the summaries it returns is built from exactly the messages of
that key, and the key is removed from `first`, `last` and `messages`. -/
theorem Flush_flushes_every_eligible_key
    (ParseDate : String → Option Time) (b : MessageBuffer) (clock : Nat → Time)
    (sender : String) (k : String) (msgs : List ReceivedMessage)
    (hrun : ∀ e ∈ b.messages.entries, Compactable b.Group e.2)
    (hbuf : b.messages.lookup k = some msgs)
    (helig : b.HardLimit ≤ (clock 0).Sub (b.first.get k 0) ∨
      b.SoftLimit ≤ (clock 0).Sub (b.last.get k 0)) :
    ∃ summaries, (Flush ParseDate b clock sender).2 = some summaries ∧
      (∃ s ∈ summaries, s.ReceivedMessages = msgs ∧
        ∃ date, Summarize ParseDate b.Group date sender msgs = some s) ∧
      (Flush ParseDate b clock sender).1.first.lookup k = none ∧
      (Flush ParseDate b clock sender).1.last.lookup k = none ∧
      (Flush ParseDate b clock sender).1.messages.lookup k = none := by
  have hk : b.keeps (clock 0) k = false := (keeps_eq_false_iff b (clock 0) k).2 helig
  obtain ⟨_, _, _, hcomplete, hret⟩ := Flush_spec ParseDate clock sender b
  obtain ⟨summaries, hs⟩ :=
    hret (fun k1 msgs1 hl _ => hrun (k1, msgs1) (b.messages.mem_of_lookup hl))
  obtain ⟨⟨date, s, hsmem, hsum⟩, f1, f2, f3⟩ := hcomplete summaries hs k msgs hbuf hk
  obtain ⟨_, _, heq⟩ := Summarize_eq ParseDate b.Group date sender msgs s hsum
  exact ⟨summaries, hs, ⟨s, hsmem, by rw [heq], date, hsum⟩, f1, f2, f3⟩

/-- C2, on a buffer of two batches flushed at time 1310: the batch of subject
"disk full", begun at time 1000, has reached the hard limit of 300. -/
theorem Flush_flushes_every_eligible_key_witness :
    ∃ summaries,
      (Flush exampleParseDate exampleBufferTwo exampleClock "failmail@example.com").2
        = some summaries ∧
      (∃ s ∈ summaries, s.ReceivedMessages = [diskFull] ∧
        ∃ date, Summarize exampleParseDate exampleBufferTwo.Group date "failmail@example.com"
          [diskFull] = some s) ∧
      (Flush exampleParseDate exampleBufferTwo exampleClock
        "failmail@example.com").1.first.lookup "disk full" = none ∧
      (Flush exampleParseDate exampleBufferTwo exampleClock
        "failmail@example.com").1.last.lookup "disk full" = none ∧
      (Flush exampleParseDate exampleBufferTwo exampleClock
        "failmail@example.com").1.messages.lookup "disk full" = none :=
  Flush_flushes_every_eligible_key exampleParseDate exampleBufferTwo exampleClock
    "failmail@example.com" "disk full" [diskFull] (by decide) rfl (Or.inl (by decide))

/-- C3: for every buffer state, every time `now` and every message whose batch
key is `k`, `Add` sets `first[k]` to `now` when `first` had no record of `k` and
leaves it as it was otherwise; sets `last[k]` to `now`; makes the messages of `k`
their previous sequence, empty when `k` was new, followed by the message; and
leaves the records of every other key, the limits and the classifiers as they
were. A key is new when `first` has no record of it, which is the test `Add`
makes; when `first` and `messages` agree on whether `k` is a key, as they do in
every reachable state, the previous sequence is `messages[k]`. -/
theorem Add_appends_to_the_batch_of_the_key
    (b : MessageBuffer) (now : Time) (msg : ReceivedMessage) (k : String)
    (hk : b.Batch msg = some k) :
    ∃ b1, Add b now msg = some b1 ∧
      (b.first.lookup k = none → b1.first.lookup k = some now) ∧
      (∀ t, b.first.lookup k = some t → b1.first.lookup k = some t) ∧
      b1.last.lookup k = some now ∧
      b1.messages.lookup k
        = some ((if b.first.contains k then b.messages.get k [] else []) ++ [msg]) ∧
      (b.first.contains k = b.messages.contains k →
        b1.messages.lookup k = some (b.messages.get k [] ++ [msg])) ∧
      (∀ k1, k1 ≠ k →
        b1.first.lookup k1 = b.first.lookup k1 ∧
        b1.last.lookup k1 = b.last.lookup k1 ∧
        b1.messages.lookup k1 = b.messages.lookup k1) ∧
      b1.SoftLimit = b.SoftLimit ∧ b1.HardLimit = b.HardLimit ∧
      b1.Batch = b.Batch ∧ b1.Group = b.Group := by
  obtain ⟨b1, hadd, hS, hH, hB, hG, hf, hl, hm, hother⟩ := Add_eq b now msg k hk
  refine ⟨b1, hadd, ?_, ?_, hl, hm, ?_, hother, hS, hH, hB, hG⟩
  · intro h
    rw [hf, h]
    rfl
  · intro t h
    rw [hf, h]
    rfl
  · intro hsame
    rw [hm]
    cases hc : b.first.contains k with
    | true => rfl
    | false =>
      rw [hc] at hsame
      have : b.messages.lookup k = none := by
        simpa [GoMap.contains] using hsame.symm
      simp [GoMap.get, this]

/-- C3, on the addition at time 1290 of a message of a new batch to a buffer that
holds one batch. -/
theorem Add_appends_to_the_batch_of_the_key_witness :
    ∃ b1, Add exampleBufferOne 1290 jobFailed = some b1 ∧
      (exampleBufferOne.first.lookup "job failed" = none →
        b1.first.lookup "job failed" = some 1290) ∧
      (∀ t, exampleBufferOne.first.lookup "job failed" = some t →
        b1.first.lookup "job failed" = some t) ∧
      b1.last.lookup "job failed" = some 1290 ∧
      b1.messages.lookup "job failed"
        = some ((if exampleBufferOne.first.contains "job failed"
            then exampleBufferOne.messages.get "job failed" [] else []) ++ [jobFailed]) ∧
      (exampleBufferOne.first.contains "job failed"
          = exampleBufferOne.messages.contains "job failed" →
        b1.messages.lookup "job failed"
          = some (exampleBufferOne.messages.get "job failed" [] ++ [jobFailed])) ∧
      (∀ k1, k1 ≠ "job failed" →
        b1.first.lookup k1 = exampleBufferOne.first.lookup k1 ∧
        b1.last.lookup k1 = exampleBufferOne.last.lookup k1 ∧
        b1.messages.lookup k1 = exampleBufferOne.messages.lookup k1) ∧
      b1.SoftLimit = exampleBufferOne.SoftLimit ∧ b1.HardLimit = exampleBufferOne.HardLimit ∧
      b1.Batch = exampleBufferOne.Batch ∧ b1.Group = exampleBufferOne.Group :=
  Add_appends_to_the_batch_of_the_key exampleBufferOne 1290 jobFailed "job failed"
    (by decide)

/-- C4: when `Flush` returns and a buffered key `k` was due (`now - firstSeen ≥
HardLimit` or `now - lastSeen ≥ SoftLimit`), the key is absent from `first`,
`last` and `messages` afterwards; and `Add`, called next at time `t` with a
message whose batch key is `k`, starts a fresh batch: `first[k]` and `last[k]`
are both `t` and the messages of `k` are the new message alone. -/
theorem Flush_then_Add_starts_a_fresh_batch
    (ParseDate : String → Option Time) (b : MessageBuffer) (clock : Nat → Time)
    (sender : String) (k : String) (msgs : List ReceivedMessage) (t : Time)
    (msg : ReceivedMessage)
    (hbuf : b.messages.lookup k = some msgs)
    (helig : b.HardLimit ≤ (clock 0).Sub (b.first.get k 0) ∨
      b.SoftLimit ≤ (clock 0).Sub (b.last.get k 0))
    (hret : (Flush ParseDate b clock sender).2.isSome = true)
    (hk : b.Batch msg = some k) :
    (Flush ParseDate b clock sender).1.first.lookup k = none ∧
    (Flush ParseDate b clock sender).1.last.lookup k = none ∧
    (Flush ParseDate b clock sender).1.messages.lookup k = none ∧
    ∃ b2, Add (Flush ParseDate b clock sender).1 t msg = some b2 ∧
      b2.first.lookup k = some t ∧ b2.last.lookup k = some t ∧
      b2.messages.lookup k = some [msg] := by
  have hkeep : b.keeps (clock 0) k = false := (keeps_eq_false_iff b (clock 0) k).2 helig
  obtain ⟨⟨_, _, hB, _⟩, _, _, hcomplete, _⟩ := Flush_spec ParseDate clock sender b
  obtain ⟨summaries, hs⟩ := Option.isSome_iff_exists.1 hret
  obtain ⟨_, f1, f2, f3⟩ := hcomplete summaries hs k msgs hbuf hkeep
  refine ⟨f1, f2, f3, ?_⟩
  obtain ⟨b2, hadd, _, _, _, _, hf, hl, hm, _⟩ :=
    Add_eq (Flush ParseDate b clock sender).1 t msg k (hB ▸ hk)
  refine ⟨b2, hadd, ?_, hl, ?_⟩
  · rw [hf, f1]
    rfl
  · rw [hm]
    have : (Flush ParseDate b clock sender).1.first.contains k = false := by
      simp [GoMap.contains, f1]
    simp [this]

/-- C4, on a buffer of two batches flushed at time 1310, to which a message of
the flushed batch is added at time 1320. -/
theorem Flush_then_Add_starts_a_fresh_batch_witness :
    (Flush exampleParseDate exampleBufferTwo exampleClock
      "failmail@example.com").1.first.lookup "disk full" = none ∧
    (Flush exampleParseDate exampleBufferTwo exampleClock
      "failmail@example.com").1.last.lookup "disk full" = none ∧
    (Flush exampleParseDate exampleBufferTwo exampleClock
      "failmail@example.com").1.messages.lookup "disk full" = none ∧
    ∃ b2, Add (Flush exampleParseDate exampleBufferTwo exampleClock
        "failmail@example.com").1 1320 diskFull = some b2 ∧
      b2.first.lookup "disk full" = some 1320 ∧ b2.last.lookup "disk full" = some 1320 ∧
      b2.messages.lookup "disk full" = some [diskFull] :=
  Flush_then_Add_starts_a_fresh_batch exampleParseDate exampleBufferTwo exampleClock
    "failmail@example.com" "disk full" [diskFull] 1320 diskFull rfl (Or.inl (by decide))
    (by decide) (by decide)

/-- C5: in every buffer state reachable from `NewMessageBuffer` by calls of `Add`
and `Flush`, the maps `first`, `last` and `messages` have the same keys, and a
key is among them exactly when its sequence of messages has at least one
message. -/
theorem Reachable_buffer_keeps_one_key_set
    (ParseDate : String → Option Time) (b : MessageBuffer) (h : Reachable ParseDate b) :
    ∀ k, b.first.contains k = b.messages.contains k ∧
      b.last.contains k = b.messages.contains k ∧
      (b.messages.contains k = true ↔ 0 < (b.messages.get k []).length) :=
  Invariant_of_Reachable ParseDate b h

/-- C5, on the buffer reached by two calls of `Add` and one of `Flush`. -/
theorem Reachable_buffer_keeps_one_key_set_witness :
    Reachable exampleParseDate
        (Flush exampleParseDate exampleBufferTwo exampleClock "failmail@example.com").1 ∧
    ∀ k,
      (Flush exampleParseDate exampleBufferTwo exampleClock
          "failmail@example.com").1.first.contains k
        = (Flush exampleParseDate exampleBufferTwo exampleClock
          "failmail@example.com").1.messages.contains k ∧
      (Flush exampleParseDate exampleBufferTwo exampleClock
          "failmail@example.com").1.last.contains k
        = (Flush exampleParseDate exampleBufferTwo exampleClock
          "failmail@example.com").1.messages.contains k ∧
      ((Flush exampleParseDate exampleBufferTwo exampleClock
          "failmail@example.com").1.messages.contains k = true ↔
        0 < ((Flush exampleParseDate exampleBufferTwo exampleClock
          "failmail@example.com").1.messages.get k []).length) :=
  have hr : Reachable exampleParseDate
      (Flush exampleParseDate exampleBufferTwo exampleClock "failmail@example.com").1 :=
    Reachable.flush exampleClock "failmail@example.com"
      (Reachable.add 1290 jobFailed
        (Reachable.add 1000 diskFull (Reachable.new 60 300 exampleGroup exampleGroup) rfl)
        rfl)
  ⟨hr, Reachable_buffer_keeps_one_key_set exampleParseDate _ hr⟩

/-! ## More lemmas on `Flush` -/

section FlushExact

variable (P : String → Option Time) (clock : Nat → Time) (sender : String)

theorem flush_fold_panicked (rest : List (String × List ReceivedMessage)) (st : FlushState)
    (h : st.panicked = true) : rest.foldl (flushStep P clock sender) st = st := by
  induction rest with
  | nil => rfl
  | cons e rest ih =>
    rw [List.foldl_cons]
    have : flushStep P clock sender st e = st := by
      unfold flushStep
      rw [if_pos h]
    rw [this, ih]

theorem Summarize_ReceivedMessages (group : GroupBy) (date : Time)
    (received : List ReceivedMessage) (s : SummaryMessage)
    (h : Summarize P group date sender received = some s) : s.ReceivedMessages = received := by
  obtain ⟨_, _, heq⟩ := Summarize_eq P group date sender received s h
  rw [heq]

theorem flush_fold_exact (b : MessageBuffer) (rest : List (String × List ReceivedMessage))
    (st : FlushState) (hnd : (rest.map Prod.fst).Nodup)
    (hagree : ∀ e ∈ rest, st.buffer.keeps (clock 0) e.1 = b.keeps (clock 0) e.1)
    (hfin : (rest.foldl (flushStep P clock sender) st).panicked = false) :
    (rest.foldl (flushStep P clock sender) st).summaries.map (fun s => s.ReceivedMessages)
      = st.summaries.map (fun s => s.ReceivedMessages)
        ++ (rest.filter (fun e => !b.keeps (clock 0) e.1)).map Prod.snd ∧
    (rest.foldl (flushStep P clock sender) st).buffer.messages.entries
      = st.buffer.messages.entries.filter
          (fun x => !((rest.filter (fun e => !b.keeps (clock 0) e.1)).map Prod.fst).contains x.1) := by
  induction rest generalizing st with
  | nil => simp
  | cons e rest ih =>
    rw [List.map_cons, List.nodup_cons] at hnd
    have hne : ∀ e1 ∈ rest, e1.1 ≠ e.1 := by
      intro e1 he1 heq
      exact hnd.1 (heq ▸ List.mem_map_of_mem Prod.fst he1)
    have hke : st.buffer.keeps (clock 0) e.1 = b.keeps (clock 0) e.1 :=
      hagree e (List.mem_cons_self _ _)
    rw [List.foldl_cons] at hfin ⊢
    rcases flushStep_cases P clock sender st e with ⟨hstep, hwhy⟩ | ⟨hp, hk, hsum, hstep⟩ |
      ⟨hp, hk, s, hsum, hstep⟩
    · rw [hstep] at hfin ⊢
      rcases hwhy with hw | hw
      · rw [flush_fold_panicked P clock sender rest st hw, hw] at hfin
        cases hfin
      · have hkb : b.keeps (clock 0) e.1 = true := hke ▸ hw
        obtain ⟨i1, i2⟩ := ih st hnd.2
          (fun e1 he1 => hagree e1 (List.mem_cons_of_mem _ he1)) hfin
        rw [List.filter_cons, if_neg (by simp [hkb])]
        exact ⟨i1, i2⟩
    · rw [hstep] at hfin
      rw [flush_fold_panicked P clock sender rest _ rfl] at hfin
      cases hfin
    · rw [hstep] at hfin ⊢
      have hkb : b.keeps (clock 0) e.1 = false := hke ▸ hk
      obtain ⟨i1, i2⟩ := ih _ hnd.2
        (fun e1 he1 => by
          rw [keeps_remove_ne st.buffer (clock 0) (hne e1 he1)]
          exact hagree e1 (List.mem_cons_of_mem _ he1)) hfin
      rw [List.filter_cons, if_pos (by simp [hkb])]
      refine ⟨?_, ?_⟩
      · rw [i1, List.map_append, List.map_cons, List.map_nil, List.map_cons,
          Summarize_ReceivedMessages P sender _ _ _ s hsum, List.append_assoc]
        rfl
      · rw [i2]
        simp only [MessageBuffer.remove, GoMap.delete, List.filter_filter, List.map_cons]
        apply List.filter_congr
        intro x _
        simp only [List.contains_cons, Bool.not_or, Bool.and_comm]

theorem Flush_exact (b : MessageBuffer) (summaries : List SummaryMessage)
    (h : (Flush P b clock sender).2 = some summaries) :
    summaries.map (fun s => s.ReceivedMessages)
      = (b.messages.entries.filter (fun e => !b.keeps (clock 0) e.1)).map Prod.snd ∧
    (Flush P b clock sender).1.messages.entries
      = b.messages.entries.filter (fun e => b.keeps (clock 0) e.1) := by
  have hres : (b.messages.entries.foldl (flushStep P clock sender) ⟨b, [], false⟩).panicked
        = false ∧
      summaries = (b.messages.entries.foldl (flushStep P clock sender) ⟨b, [], false⟩).summaries := by
    simp only [Flush] at h
    cases hp : (b.messages.entries.foldl (flushStep P clock sender) ⟨b, [], false⟩).panicked with
    | true => simp [hp] at h
    | false =>
      simp only [hp, Bool.false_eq_true, if_false, Option.some.injEq] at h
      exact ⟨rfl, h.symm⟩
  obtain ⟨hfin, rfl⟩ := hres
  obtain ⟨i1, i2⟩ := flush_fold_exact P clock sender b b.messages.entries ⟨b, [], false⟩
    b.messages.nodup (fun _ _ => rfl) hfin
  refine ⟨by simpa using i1, ?_⟩
  show (b.messages.entries.foldl (flushStep P clock sender) ⟨b, [], false⟩).buffer.messages.entries
    = _
  rw [i2]
  apply List.filter_congr
  intro x hx
  cases hk : b.keeps (clock 0) x.1 with
  | true =>
    simp only [Bool.not_eq_true', List.contains_eq_any_beq, List.any_eq_false, List.mem_map,
      List.mem_filter, Bool.not_eq_true', beq_iff_eq]
    rintro k ⟨e, ⟨_, hek⟩, rfl⟩ heq
    rw [heq, hek] at hk
    cases hk
  | false =>
    simp only [Bool.not_eq_false', List.contains_eq_any_beq, List.any_eq_true, List.mem_map,
      List.mem_filter, beq_iff_eq]
    exact ⟨x.1, ⟨x, ⟨hx, by simp [hk]⟩, rfl⟩, rfl⟩

theorem Summarize_counts (group : GroupBy) (date : Time) (received : List ReceivedMessage)
    (s : SummaryMessage) (h : Summarize P group date sender received = some s) :
    (s.UniqueMessages.map (fun u => u.Count)).sum = s.ReceivedMessages.length ∧
    (received ≠ [] → s.UniqueMessages ≠ []) := by
  obtain ⟨us, hus, heq⟩ := Summarize_eq P group date sender received s h
  obtain ⟨us1, hus1, _, _, _, hsum⟩ :=
    Compact_spec P group received (Compactable_of_Compact P group received us hus)
  rw [hus] at hus1
  cases hus1
  rw [heq]
  refine ⟨hsum, ?_⟩
  intro hne hnil
  simp only at hnil
  rw [hnil] at hsum
  simp only [List.map_nil, List.sum_nil] at hsum
  exact hne (List.length_eq_zero.1 hsum.symm)

end FlushExact

/-! ## Further properties of `Summarize` and `Flush` -/

/-- C11: for every list of `n` received messages that `Summarize` can process,
`Summarize` returns a summary whose `From` is the given address, whose
`ReceivedMessages` is the input list, whose `UniqueMessages` is what `Compact`
returns for the input, whose `Date` is the reading of the clock, and whose
`Subject` is "[failmail] " followed by `n`, a space and the word "message" when
`n = 1`, "messages" for every other `n`. -/
theorem Summarize_fills_the_summary
    (ParseDate : String → Option Time) (group : GroupBy) (date : Time) (sender : String)
    (received : List ReceivedMessage) (h : Compactable group received) :
    ∃ s, Summarize ParseDate group date sender received = some s ∧
      s.From = sender ∧
      s.ReceivedMessages = received ∧
      Compact ParseDate group received = some s.UniqueMessages ∧
      s.Date = date ∧
      s.Subject = "[failmail] " ++
        (toString received.length ++ " " ++
          (if received.length = 1 then "message" else "messages")) := by
  obtain ⟨s, hs⟩ := Summarize_some ParseDate group date sender received h
  obtain ⟨us, hus, heq⟩ := Summarize_eq ParseDate group date sender received s hs
  refine ⟨s, hs, by rw [heq], by rw [heq], by rw [heq]; exact hus, by rw [heq], ?_⟩
  rw [heq]
  simp only [Plural]
  by_cases hn : received.length = 1
  · rw [if_pos hn, if_pos (by rw [hn]; rfl)]
    rfl
  · rw [if_neg hn, if_neg (by
      intro h1
      exact hn (by exact_mod_cast h1))]
    rfl

/-- C11, on three messages: the subject is "[failmail] 3 messages". -/
theorem Summarize_fills_the_summary_witness :
    (∃ s, Summarize exampleParseDate exampleGroup 1310 "failmail@example.com" exampleMessages
        = some s ∧
      s.From = "failmail@example.com" ∧
      s.ReceivedMessages = exampleMessages ∧
      Compact exampleParseDate exampleGroup exampleMessages = some s.UniqueMessages ∧
      s.Date = 1310 ∧
      s.Subject = "[failmail] " ++
        (toString exampleMessages.length ++ " " ++
          (if exampleMessages.length = 1 then "message" else "messages"))) ∧
    "[failmail] " ++
        (toString exampleMessages.length ++ " " ++
          (if exampleMessages.length = 1 then "message" else "messages"))
      = "[failmail] 3 messages" :=
  ⟨Summarize_fills_the_summary exampleParseDate exampleGroup 1310 "failmail@example.com"
    exampleMessages (by decide), by decide⟩

/-- C19: in every buffer state reachable from `NewMessageBuffer` by calls of `Add`
and `Flush`, every sequence of messages in the buffer, which are the only lists
`Flush` hands to `Summarize`, is not empty; and every summary `Flush` returns has
at least one received message and at least one unique message. -/
theorem Flush_summarizes_non_empty_batches
    (ParseDate : String → Option Time) (b : MessageBuffer) (h : Reachable ParseDate b)
    (clock : Nat → Time) (sender : String) :
    (∀ k msgs, b.messages.lookup k = some msgs → msgs ≠ []) ∧
    ∀ summaries, (Flush ParseDate b clock sender).2 = some summaries →
      ∀ s ∈ summaries, s.ReceivedMessages ≠ [] ∧ s.UniqueMessages ≠ [] := by
  have hinv := Invariant_of_Reachable ParseDate b h
  have hne : ∀ k msgs, b.messages.lookup k = some msgs → msgs ≠ [] := by
    intro k msgs hl hnil
    have := (hinv k).2.2.1 (by simp [GoMap.contains, hl])
    simp [GoMap.get, hl, hnil] at this
  refine ⟨hne, ?_⟩
  intro summaries hs s hsmem
  obtain ⟨_, _, hprov, _, _⟩ := Flush_spec ParseDate clock sender b
  obtain ⟨k, msgs, date, hl, _, hsum⟩ := hprov summaries hs s hsmem
  refine ⟨?_, (Summarize_counts ParseDate sender b.Group date msgs s hsum).2 (hne k msgs hl)⟩
  rw [Summarize_ReceivedMessages ParseDate sender b.Group date msgs s hsum]
  exact hne k msgs hl

/-- C19, on the buffer reached by two calls of `Add`, flushed at time 1310. -/
theorem Flush_summarizes_non_empty_batches_witness :
    Reachable exampleParseDate exampleBufferTwo ∧
    (∀ k msgs, exampleBufferTwo.messages.lookup k = some msgs → msgs ≠ []) ∧
    ∀ summaries,
      (Flush exampleParseDate exampleBufferTwo exampleClock "failmail@example.com").2
        = some summaries →
      ∀ s ∈ summaries, s.ReceivedMessages ≠ [] ∧ s.UniqueMessages ≠ [] :=
  have hr : Reachable exampleParseDate exampleBufferTwo :=
    Reachable.add 1290 jobFailed
      (Reachable.add 1000 diskFull (Reachable.new 60 300 exampleGroup exampleGroup) rfl) rfl
  ⟨hr, Flush_summarizes_non_empty_batches exampleParseDate exampleBufferTwo hr exampleClock
    "failmail@example.com"⟩

/-- C20: for every buffer state all of whose batches `Summarize` can process and
every time, `Flush` returns; the `ReceivedMessages` of the summaries it returns
are, in the order of iteration, the message sequences of the keys that are due,
each whole and in its order of appending; the entries of `messages` after the call
are the entries of the keys that are kept; so the batches, and the messages, held
before the call are those of the summaries together with those still held, each
once; and in each summary the counts of the unique messages sum to the number of
received messages. -/
theorem Flush_neither_loses_nor_duplicates_messages
    (ParseDate : String → Option Time) (b : MessageBuffer) (clock : Nat → Time)
    (sender : String) (hrun : ∀ e ∈ b.messages.entries, Compactable b.Group e.2) :
    ∃ summaries, (Flush ParseDate b clock sender).2 = some summaries ∧
      summaries.map (fun s => s.ReceivedMessages)
        = (b.messages.entries.filter (fun e => !b.keeps (clock 0) e.1)).map Prod.snd ∧
      (Flush ParseDate b clock sender).1.messages.entries
        = b.messages.entries.filter (fun e => b.keeps (clock 0) e.1) ∧
      (summaries.map (fun s => s.ReceivedMessages)
          ++ (Flush ParseDate b clock sender).1.messages.entries.map Prod.snd).Perm
        (b.messages.entries.map Prod.snd) ∧
      ((summaries.map (fun s => s.ReceivedMessages)).flatten
          ++ ((Flush ParseDate b clock sender).1.messages.entries.map Prod.snd).flatten).Perm
        (b.messages.entries.map Prod.snd).flatten ∧
      ∀ s ∈ summaries,
        (s.UniqueMessages.map (fun u => u.Count)).sum = s.ReceivedMessages.length := by
  obtain ⟨_, _, hprov, _, hret⟩ := Flush_spec ParseDate clock sender b
  obtain ⟨summaries, hs⟩ :=
    hret (fun k1 msgs1 hl _ => hrun (k1, msgs1) (b.messages.mem_of_lookup hl))
  obtain ⟨e1, e2⟩ := Flush_exact ParseDate clock sender b summaries hs
  have hperm : (summaries.map (fun s => s.ReceivedMessages)
      ++ (Flush ParseDate b clock sender).1.messages.entries.map Prod.snd).Perm
      (b.messages.entries.map Prod.snd) := by
    rw [e1, e2, ← List.map_append]
    apply List.Perm.map
    have := List.filter_append_perm (fun e => b.keeps (clock 0) e.1) b.messages.entries
    exact List.perm_append_comm.trans this
  refine ⟨summaries, hs, e1, e2, hperm, ?_, ?_⟩
  · rw [← List.flatten_append]
    exact hperm.flatten
  · intro s hsmem
    obtain ⟨k, msgs, date, _, _, hsum⟩ := hprov summaries hs s hsmem
    exact (Summarize_counts ParseDate sender b.Group date msgs s hsum).1

/-- C20, on a buffer of two batches flushed at time 1310, when one is due. -/
theorem Flush_neither_loses_nor_duplicates_messages_witness :
    ∃ summaries,
      (Flush exampleParseDate exampleBufferTwo exampleClock "failmail@example.com").2
        = some summaries ∧
      summaries.map (fun s => s.ReceivedMessages)
        = (exampleBufferTwo.messages.entries.filter
            (fun e => !exampleBufferTwo.keeps (exampleClock 0) e.1)).map Prod.snd ∧
      (Flush exampleParseDate exampleBufferTwo exampleClock
          "failmail@example.com").1.messages.entries
        = exampleBufferTwo.messages.entries.filter
            (fun e => exampleBufferTwo.keeps (exampleClock 0) e.1) ∧
      (summaries.map (fun s => s.ReceivedMessages)
          ++ (Flush exampleParseDate exampleBufferTwo exampleClock
            "failmail@example.com").1.messages.entries.map Prod.snd).Perm
        (exampleBufferTwo.messages.entries.map Prod.snd) ∧
      ((summaries.map (fun s => s.ReceivedMessages)).flatten
          ++ ((Flush exampleParseDate exampleBufferTwo exampleClock
            "failmail@example.com").1.messages.entries.map Prod.snd).flatten).Perm
        (exampleBufferTwo.messages.entries.map Prod.snd).flatten ∧
      ∀ s ∈ summaries,
        (s.UniqueMessages.map (fun u => u.Count)).sum = s.ReceivedMessages.length :=
  Flush_neither_loses_nor_duplicates_messages exampleParseDate exampleBufferTwo exampleClock
    "failmail@example.com" (by decide)

/-! ## Lemmas on the rendering of a summary -/

theorem foldl_append_init (l : List String) (a : String) :
    l.foldl (fun r s => r ++ s) a = a ++ l.foldl (fun r s => r ++ s) "" := by
  induction l generalizing a with
  | nil => simp
  | cons x l ih =>
    rw [List.foldl_cons, List.foldl_cons, ih, ih ("" ++ x), String.empty_append,
      String.append_assoc]

theorem join_cons (x : String) (l : List String) :
    String.join (x :: l) = x ++ String.join l := by
  unfold String.join
  rw [List.foldl_cons, foldl_append_init, String.empty_append]

theorem foldl_bytesUniqueStep (Format : Time → String) (us : List UniqueMessage)
    (buf : String) :
    us.foldl (bytesUniqueStep Format) buf = buf ++ String.join (us.map (uniqueBlock Format)) := by
  induction us generalizing buf with
  | nil => simp [String.join]
  | cons u us ih =>
    rw [List.foldl_cons, ih, List.map_cons, join_cons]
    simp only [bytesUniqueStep, uniqueBlock, String.append_assoc]

theorem bytesMessageStep_eq (P : String → Option Time) (Format : Time → String)
    (buf : String) (m : ReceivedMessage) (h : m.Message.isSome = true) :
    bytesMessageStep P Format buf m = some (buf ++ messageLine P Format m) := by
  obtain ⟨mail, hmail⟩ := Option.isSome_iff_exists.1 h
  unfold bytesMessageStep messageLine dateOrQuestionMark subjectOf
  simp only [hmail, Option.some_bind, String.append_assoc]
  cases mail.Header.Date P <;> rfl

theorem foldlM_bytesMessageStep (P : String → Option Time) (Format : Time → String)
    (ms : List ReceivedMessage) (buf : String) (h : ∀ m ∈ ms, m.Message.isSome = true) :
    ms.foldlM (bytesMessageStep P Format) buf
      = some (buf ++ String.join (ms.map (messageLine P Format))) := by
  induction ms generalizing buf with
  | nil => simp [String.join]
  | cons m ms ih =>
    rw [List.foldlM_cons, bytesMessageStep_eq P Format buf m (h m (List.mem_cons_self _ _))]
    simp only [Option.some_bind, Option.bind_eq_bind]
    rw [ih _ (fun x hx => h x (List.mem_cons_of_mem _ hx)), List.map_cons, join_cons,
      String.append_assoc]

theorem foldlM_bytesMessageStep_none (P : String → Option Time) (Format : Time → String)
    (ms : List ReceivedMessage) (buf : String) (m : ReceivedMessage) (hm : m ∈ ms)
    (h : m.Message = none) : ms.foldlM (bytesMessageStep P Format) buf = none := by
  induction ms generalizing buf with
  | nil => simp at hm
  | cons x ms ih =>
    rw [List.foldlM_cons]
    cases hx : bytesMessageStep P Format buf x with
    | none => rfl
    | some buf1 =>
      simp only [Option.some_bind, Option.bind_eq_bind]
      rcases List.mem_cons.1 hm with heq | hin
      · subst heq
        simp [bytesMessageStep, h] at hx
      · exact ih buf1 hin

/-! ## Properties of the rendering of a summary -/

set_option maxRecDepth 100000 in
/-- C12, as the claim states it, fails: the line of a received message has no
space before the colon. The summary of one message without a date is rendered
with the line `?: job failed`, not with the line `? : job failed` of the form the
claim gives. -/
theorem Bytes_line_has_no_space_before_the_colon :
    exampleSummary.Bytes exampleParseDate exampleFormat
      = some ("From: failmail@example.com\r\nTo: dev@example.com\r\n"
          ++ "Subject: [failmail] 1 message\r\nDate: 1310\r\n\r\n"
          ++ "?: job failed\r\n"
          ++ "\r\n# 1 instances\r\n* 0 - 0\r\n\r\njob failed\r\n- job failed\r\n"
          ++ "body of job failed\r\n") ∧
    exampleSummary.Bytes exampleParseDate exampleFormat
      ≠ some (summaryHeader exampleFormat exampleSummary
          ++ String.join (exampleSummary.ReceivedMessages.map
              (specMessageLine exampleParseDate exampleFormat))
          ++ String.join (exampleSummary.UniqueMessages.map (uniqueBlock exampleFormat))) := by
  decide

/-- C12, amended: for every summary whose received messages all have their parsed
message, `Bytes` renders the header block `From`, `To` (the recipients joined by
", "), `Subject` and `Date`, then a blank line, then one line for each received
message, in the order of the list, of the form `<date or "?">: <subject>` with the
colon right after the date (the date when the date header is present and parses,
"?" otherwise), then one block for each unique message, in order, giving the
number of instances, the range from start to end, the template, the subject and
the body. The text is a function of the fields of the summary alone. -/
theorem Bytes_renders_header_lines_and_blocks
    (ParseDate : String → Option Time) (Format : Time → String) (s : SummaryMessage)
    (h : ∀ m ∈ s.ReceivedMessages, m.Message.isSome = true) :
    s.Bytes ParseDate Format
      = some (summaryHeader Format s
          ++ String.join (s.ReceivedMessages.map (messageLine ParseDate Format))
          ++ String.join (s.UniqueMessages.map (uniqueBlock Format))) ∧
    (s.ReceivedMessages.map (messageLine ParseDate Format)).length
      = s.ReceivedMessages.length ∧
    (s.UniqueMessages.map (uniqueBlock Format)).length = s.UniqueMessages.length := by
  refine ⟨?_, List.length_map _ _, List.length_map _ _⟩
  unfold SummaryMessage.Bytes
  simp only [String.empty_append]
  rw [foldlM_bytesMessageStep ParseDate Format s.ReceivedMessages _ h]
  simp only [foldl_bytesUniqueStep, summaryHeader, String.append_assoc]

/-- C12 amended, on the summary of one message. -/
theorem Bytes_renders_header_lines_and_blocks_witness :
    exampleSummary.Bytes exampleParseDate exampleFormat
      = some (summaryHeader exampleFormat exampleSummary
          ++ String.join (exampleSummary.ReceivedMessages.map
              (messageLine exampleParseDate exampleFormat))
          ++ String.join (exampleSummary.UniqueMessages.map (uniqueBlock exampleFormat))) ∧
    (exampleSummary.ReceivedMessages.map (messageLine exampleParseDate exampleFormat)).length
      = exampleSummary.ReceivedMessages.length ∧
    (exampleSummary.UniqueMessages.map (uniqueBlock exampleFormat)).length
      = exampleSummary.UniqueMessages.length :=
  Bytes_renders_header_lines_and_blocks exampleParseDate exampleFormat exampleSummary
    (by decide)

/-! ## Properties of the classifiers -/

/-- C13: the code at the failing input. The message `diskFull` has exactly one
value for the header `subject` when keys are looked up without regard to letter
case, and `Header.Get "subject"`, by which `Compact` and `Bytes` read the subject,
finds it; yet `Header "subject" "none"`, which indexes the header map with the
name as it is given, returns the default. It finds the value only under the
canonical name `Subject`. -/
theorem Header_lookup_is_case_sensitive :
    diskFull.Message.map
        (fun mail => mail.Header.lookup (CanonicalMIMEHeaderKey "subject"))
      = some (some ["disk full"]) ∧
    diskFull.Message.map (fun mail => mail.Header.Get "subject") = some "disk full" ∧
    Header "subject" "none" diskFull = some "none" ∧
    Header "Subject" "none" diskFull = some "disk full" := by
  decide

/-- What `Header h d` computes on a received message that has its parsed message:
the value stored in the header map under the key `h` itself when exactly one
value is stored there, and `d` when none or more than one is; so for a name `h`
in canonical form, the form of the keys of a parsed header, it returns the single
value that the lookup without regard to letter case finds. -/
theorem Header_returns_the_single_value_or_the_default
    (h d : String) (r : ReceivedMessage) (mail : MailMessage) (hm : r.Message = some mail) :
    (∀ v, mail.Header.lookup h = some [v] → Header h d r = some v) ∧
    (mail.Header.lookup h = none → Header h d r = some d) ∧
    (∀ vs, mail.Header.lookup h = some vs → vs.length ≠ 1 → Header h d r = some d) ∧
    (CanonicalMIMEHeaderKey h = h →
      ∀ v, mail.Header.lookup (CanonicalMIMEHeaderKey h) = some [v] → Header h d r = some v) := by
  have h1 : ∀ v, mail.Header.lookup h = some [v] → Header h d r = some v := by
    intro v hv
    simp [Header, hm, hv]
  refine ⟨h1, ?_, ?_, ?_⟩
  · intro hn
    simp [Header, hm, hn]
  · intro vs hvs hlen
    unfold Header
    simp only [hm, hvs]
    match vs, hlen with
    | [], _ => rfl
    | [_], hlen => exact absurd rfl hlen
    | _ :: _ :: _, _ => rfl
  · intro hc v hv
    rw [hc] at hv
    exact h1 v hv

/-- `Header` with the canonical name `Subject`, on a message with one `Subject`
header. -/
theorem Header_returns_the_single_value_or_the_default_witness :
    (∀ v, (exampleMail "disk full" "01 Jan 2014 00:00:00 +0000").Header.lookup "Subject"
        = some [v] →
      Header "Subject" "none" diskFull = some v) ∧
    ((exampleMail "disk full" "01 Jan 2014 00:00:00 +0000").Header.lookup "Subject" = none →
      Header "Subject" "none" diskFull = some "none") ∧
    (∀ vs, (exampleMail "disk full" "01 Jan 2014 00:00:00 +0000").Header.lookup "Subject"
        = some vs →
      vs.length ≠ 1 → Header "Subject" "none" diskFull = some "none") ∧
    (CanonicalMIMEHeaderKey "Subject" = "Subject" →
      ∀ v, (exampleMail "disk full" "01 Jan 2014 00:00:00 +0000").Header.lookup
          (CanonicalMIMEHeaderKey "Subject") = some [v] →
        Header "Subject" "none" diskFull = some v) :=
  Header_returns_the_single_value_or_the_default "Subject" "none" diskFull
    (exampleMail "disk full" "01 Jan 2014 00:00:00 +0000") rfl

/-- C14, as the claim states it, fails: on a received message whose parsed
message was never attached, each of the three classifiers panics on the nil
`Message` and returns nothing. -/
theorem classifiers_panic_without_parsed_message :
    SameSubject unparsedMessage = none ∧
    (ReplacedSubject exampleRegexp "[0-9]+" "#").isSome = true ∧
    (ReplacedSubject exampleRegexp "[0-9]+" "#").bind (fun g => g unparsedMessage) = none ∧
    Header "Subject" "none" unparsedMessage = none := by
  decide

/-- C14, amended: for every received message that has its parsed message, also
one with no `Subject` header, each classifier returns a string without failing:
`SameSubject` the trimmed subject, a classifier made by `ReplacedSubject` from a
pattern that compiles the subject after replacement, `Header` a value or its
default; with no `Subject` header the subject they read is the empty string. A
classifier yields a key and nothing else, so it does not modify the message. -/
theorem classifiers_return_on_a_parsed_message
    (r : ReceivedMessage) (mail : MailMessage) (hm : r.Message = some mail) :
    SameSubject r = some (TrimSpace (mail.Header.Get "Subject")) ∧
    (∀ lib pattern replace re, lib.Compile pattern = some re →
      ∃ g, ReplacedSubject lib pattern replace = some g ∧
        g r = some (lib.ReplaceAllString re (mail.Header.Get "Subject") replace)) ∧
    (∀ h d, ∃ k, Header h d r = some k) ∧
    (mail.Header.lookup "Subject" = none →
      mail.Header.Get "Subject" = "" ∧ SameSubject r = some "" ∧
      ∀ d, Header "Subject" d r = some d) := by
  have hs : SameSubject r = some (TrimSpace (mail.Header.Get "Subject")) := by
    simp [SameSubject, hm]
  refine ⟨hs, ?_, ?_, ?_⟩
  · intro lib pattern replace re hre
    refine ⟨replacedSubjectOf lib re replace, by simp only [ReplacedSubject, hre], ?_⟩
    simp only [replacedSubjectOf, hm]
  · intro h d
    unfold Header
    simp only [hm]
    split
    · exact ⟨_, rfl⟩
    · exact ⟨_, rfl⟩
  · intro hn
    have hg : mail.Header.Get "Subject" = "" := by
      have hc : CanonicalMIMEHeaderKey "Subject" = "Subject" := by decide
      simp [MailHeader.Get, hc, hn]
    refine ⟨hg, ?_, ?_⟩
    · rw [hs, hg]
      rfl
    · intro d
      simp [Header, hm, hn]

/-- C14 amended, on a message whose parsed message has no header. -/
theorem classifiers_return_on_a_parsed_message_witness :
    SameSubject headerlessMessage
      = some (TrimSpace ((⟨GoMap.empty, some ""⟩ : MailMessage).Header.Get "Subject")) ∧
    (∀ lib pattern replace re, lib.Compile pattern = some re →
      ∃ g, ReplacedSubject lib pattern replace = some g ∧
        g headerlessMessage = some (lib.ReplaceAllString re
          ((⟨GoMap.empty, some ""⟩ : MailMessage).Header.Get "Subject") replace)) ∧
    (∀ h d, ∃ k, Header h d headerlessMessage = some k) ∧
    ((⟨GoMap.empty, some ""⟩ : MailMessage).Header.lookup "Subject" = none →
      (⟨GoMap.empty, some ""⟩ : MailMessage).Header.Get "Subject" = "" ∧
      SameSubject headerlessMessage = some "" ∧
      ∀ d, Header "Subject" d headerlessMessage = some d) :=
  classifiers_return_on_a_parsed_message headerlessMessage ⟨GoMap.empty, some ""⟩ rfl

/-- C15: for every pattern that compiles and every replacement, the classifier
made by `ReplacedSubject` returns, for a message that has its parsed message, what
`ReplaceAllString` makes of the subject, the matches of the pattern replaced by
the replacement; and for any two such messages whose subjects become equal under
the replacement, `Compact` with this classifier returns exactly one unique
message, of count 2 and of template the subject after replacement. -/
theorem ReplacedSubject_collapses_subjects_equal_after_replacement
    (ParseDate : String → Option Time) (lib : RegexpLibrary) (pattern replace : String)
    (re : lib.Regexp) (hre : lib.Compile pattern = some re) :
    ∃ g, ReplacedSubject lib pattern replace = some g ∧
      (∀ r mail, r.Message = some mail →
        g r = some (lib.ReplaceAllString re (mail.Header.Get "Subject") replace)) ∧
      (∀ m1 m2 mail1 mail2, m1.Message = some mail1 → m2.Message = some mail2 →
        lib.ReplaceAllString re (mail1.Header.Get "Subject") replace
          = lib.ReplaceAllString re (mail2.Header.Get "Subject") replace →
        ∃ u, Compact ParseDate g [m1, m2] = some [u] ∧ u.Count = 2 ∧
          u.Template = lib.ReplaceAllString re (mail1.Header.Get "Subject") replace) := by
  refine ⟨replacedSubjectOf lib re replace, by simp only [ReplacedSubject, hre], ?_, ?_⟩
  · intro r mail hm
    simp only [replacedSubjectOf, hm]
  · intro m1 m2 mail1 mail2 h1 h2 heq
    have hk1 : replacedSubjectOf lib re replace m1
        = some (lib.ReplaceAllString re (mail1.Header.Get "Subject") replace) := by
      simp only [replacedSubjectOf, h1]
    have hk2 : replacedSubjectOf lib re replace m2
        = some (lib.ReplaceAllString re (mail1.Header.Get "Subject") replace) := by
      simp only [replacedSubjectOf, h2, heq]
    refine ⟨(({ Template := lib.ReplaceAllString re (mail1.Header.Get "Subject") replace } :
      UniqueMessage).observe ParseDate m1 mail1).observe ParseDate m2 mail2, ?_, ?_, ?_⟩
    · simp only [Compact, List.foldlM_cons, List.foldlM_nil]
      rw [compactStep_eq ParseDate _ [] m1 _ mail1 hk1 h1]
      simp only [Option.some_bind, Option.bind_eq_bind, List.map_nil, List.not_mem_nil,
        if_false, List.nil_append, List.map_cons, if_true]
      rw [compactStep_eq ParseDate _ _ m2 _ mail2 hk2 h2]
      simp only [List.map_cons, List.map_nil, observe_Template, List.mem_singleton, if_true,
        Option.some_bind, Option.bind_eq_bind, pure]
    · simp only [observe_Count]
    · simp only [observe_Template]

/-- C15, on the messages of subjects "Job 123 failed" and "Job 456 failed" with
runs of digits replaced by "#": one unique message, of template "Job # failed"
and count 2. -/
theorem ReplacedSubject_collapses_subjects_equal_after_replacement_witness :
    (∃ g, ReplacedSubject exampleRegexp "[0-9]+" "#" = some g ∧
      (∀ r mail, r.Message = some mail →
        g r = some (exampleRegexp.ReplaceAllString () (mail.Header.Get "Subject") "#")) ∧
      (∀ m1 m2 mail1 mail2, m1.Message = some mail1 → m2.Message = some mail2 →
        exampleRegexp.ReplaceAllString () (mail1.Header.Get "Subject") "#"
          = exampleRegexp.ReplaceAllString () (mail2.Header.Get "Subject") "#" →
        ∃ u, Compact exampleParseDate g [m1, m2] = some [u] ∧ u.Count = 2 ∧
          u.Template = exampleRegexp.ReplaceAllString () (mail1.Header.Get "Subject") "#")) ∧
    (ReplacedSubject exampleRegexp "[0-9]+" "#").bind (fun g =>
        (Compact exampleParseDate g [job123, job456]).map
          (fun us => us.map (fun u => (u.Template, u.Count))))
      = some [("Job # failed", 2)] :=
  ⟨ReplacedSubject_collapses_subjects_equal_after_replacement exampleParseDate exampleRegexp
    "[0-9]+" "#" () rfl, by decide⟩

/-! ## Properties of the protocol session -/

theorem AdvanceAll_rcpt (s : Session) (addrs : List String) (h : s.Received.From ≠ "") :
    (s.AdvanceAll (addrs.map Command.rcpt)).2.map (fun r => r.Code) = addrs.map (fun _ => 250) ∧
    (s.AdvanceAll (addrs.map Command.rcpt)).1.Received.To = s.Received.To ++ addrs ∧
    (s.AdvanceAll (addrs.map Command.rcpt)).1.Received.From = s.Received.From := by
  induction addrs generalizing s with
  | nil => simp [Session.AdvanceAll]
  | cons a addrs ih =>
    have hstep : s.Advance (Command.rcpt a)
        = ({ s with Received := { s.Received with To := s.Received.To ++ [a] } },
            { Code := 250, Text := "ok" }) := by
      simp only [Session.Advance, if_neg h]
    obtain ⟨i1, i2, i3⟩ :=
      ih { s with Received := { s.Received with To := s.Received.To ++ [a] } } h
    simp only [List.map_cons, Session.AdvanceAll, hstep]
    refine ⟨by rw [i1], ?_, i3⟩
    rw [i2, List.append_assoc]
    rfl

/-- C16: for every session state, `Advance` on a `RCPT` command while the sender
is unset (`From` is empty), and on a `MAIL` command while the sender is set,
returns a response of code 503 and leaves the received message in progress as it
was, so that `To` is not extended and `From` keeps its value. -/
theorem Advance_out_of_sequence_gives_503_and_changes_nothing
    (s : Session) (mailbox : String) :
    (s.Received.From = "" →
      (s.Advance (Command.rcpt mailbox)).2.Code = 503 ∧
      (s.Advance (Command.rcpt mailbox)).1.Received = s.Received) ∧
    (s.Received.From ≠ "" →
      (s.Advance (Command.mail mailbox)).2.Code = 503 ∧
      (s.Advance (Command.mail mailbox)).1.Received = s.Received) := by
  constructor
  · intro h
    have hstep : s.Advance (Command.rcpt mailbox)
        = (s, { Code := 503, Text := "bad sequence" }) := by
      simp only [Session.Advance, if_pos h]
    rw [hstep]
    exact ⟨rfl, rfl⟩
  · intro h
    have hstep : s.Advance (Command.mail mailbox)
        = (s, { Code := 503, Text := "bad sequence" }) := by
      simp only [Session.Advance, if_neg h]
    rw [hstep]
    exact ⟨rfl, rfl⟩

/-- C16, on a session just started, where `RCPT` comes before `MAIL`, and on the
session after one `MAIL`, where a second `MAIL` comes. -/
theorem Advance_out_of_sequence_gives_503_and_changes_nothing_witness :
    ((Session.Start.1.Advance (Command.rcpt "test@example.com")).2.Code = 503 ∧
      (Session.Start.1.Advance (Command.rcpt "test@example.com")).1.Received
        = Session.Start.1.Received) ∧
    (((Session.Start.1.Advance (Command.mail "test@example.com")).1.Advance
        (Command.mail "other@example.com")).2.Code = 503 ∧
      ((Session.Start.1.Advance (Command.mail "test@example.com")).1.Advance
        (Command.mail "other@example.com")).1.Received
        = (Session.Start.1.Advance (Command.mail "test@example.com")).1.Received) :=
  ⟨(Advance_out_of_sequence_gives_503_and_changes_nothing Session.Start.1
      "test@example.com").1 rfl,
    (Advance_out_of_sequence_gives_503_and_changes_nothing
      (Session.Start.1.Advance (Command.mail "test@example.com")).1
      "other@example.com").2 (by decide)⟩

/-- C17, as the claim states it, fails on the session modelled from the
specification: `MAIL` with the empty mailbox succeeds with 250 and leaves `From`
empty, which is the state of a sender not set, so the `RCPT` that follows returns
503 and `To` stays empty. -/
theorem Advance_RCPT_after_MAIL_with_empty_mailbox_gives_503 :
    (Session.Start.1.Advance (Command.mail "")).2.Code = 250 ∧
    ((Session.Start.1.Advance (Command.mail "")).1.AdvanceAll
        (["test1@example.com"].map Command.rcpt)).2.map (fun r => r.Code) = [503] ∧
    ((Session.Start.1.Advance (Command.mail "")).1.AdvanceAll
        (["test1@example.com"].map Command.rcpt)).1.Received.To = [] := by
  decide

/-- C17, amended: for every session in which the sender is unset, every mailbox
that is not empty and every sequence of addresses, `MAIL` with the mailbox returns 250,
each `RCPT` advanced after it returns 250, and `To` at the end is `To` as it was
followed by the addresses in the order issued, an address issued twice standing
twice; in a session just started it is exactly the addresses issued. -/
theorem Advance_RCPT_keeps_order_and_duplicates
    (s : Session) (mailbox : String) (addrs : List String)
    (hfrom : s.Received.From = "") (hbox : mailbox ≠ "") :
    (s.Advance (Command.mail mailbox)).2.Code = 250 ∧
    (s.Advance (Command.mail mailbox)).1.Received.From = mailbox ∧
    ((s.Advance (Command.mail mailbox)).1.AdvanceAll (addrs.map Command.rcpt)).2.map
        (fun r => r.Code) = addrs.map (fun _ => 250) ∧
    ((s.Advance (Command.mail mailbox)).1.AdvanceAll
        (addrs.map Command.rcpt)).1.Received.To = s.Received.To ++ addrs ∧
    (s.Received.To = [] →
      ((s.Advance (Command.mail mailbox)).1.AdvanceAll
        (addrs.map Command.rcpt)).1.Received.To = addrs) := by
  have hstep : s.Advance (Command.mail mailbox)
      = ({ s with Received := { s.Received with From := mailbox } },
          { Code := 250, Text := "ok" }) := by
    simp only [Session.Advance, if_pos hfrom]
  obtain ⟨i1, i2, _⟩ :=
    AdvanceAll_rcpt { s with Received := { s.Received with From := mailbox } } addrs hbox
  rw [hstep]
  refine ⟨rfl, rfl, i1, i2, ?_⟩
  intro hTo
  rw [i2]
  simp only [hTo, List.nil_append]

/-- C17 amended, on a session just started: `MAIL` and then `RCPT` to `test1`,
`test2` and `test2` again. -/
theorem Advance_RCPT_keeps_order_and_duplicates_witness :
    (Session.Start.1.Advance (Command.mail "test@example.com")).2.Code = 250 ∧
    (Session.Start.1.Advance (Command.mail "test@example.com")).1.Received.From
      = "test@example.com" ∧
    ((Session.Start.1.Advance (Command.mail "test@example.com")).1.AdvanceAll
        (["test1@example.com", "test2@example.com", "test2@example.com"].map
          Command.rcpt)).2.map (fun r => r.Code)
      = ["test1@example.com", "test2@example.com", "test2@example.com"].map (fun _ => 250) ∧
    ((Session.Start.1.Advance (Command.mail "test@example.com")).1.AdvanceAll
        (["test1@example.com", "test2@example.com", "test2@example.com"].map
          Command.rcpt)).1.Received.To
      = Session.Start.1.Received.To
        ++ ["test1@example.com", "test2@example.com", "test2@example.com"] ∧
    (Session.Start.1.Received.To = [] →
      ((Session.Start.1.Advance (Command.mail "test@example.com")).1.AdvanceAll
        (["test1@example.com", "test2@example.com", "test2@example.com"].map
          Command.rcpt)).1.Received.To
      = ["test1@example.com", "test2@example.com", "test2@example.com"]) :=
  Advance_RCPT_keeps_order_and_duplicates Session.Start.1 "test@example.com"
    ["test1@example.com", "test2@example.com", "test2@example.com"] rfl (by decide)

/-- C18: for every response, whatever its text, `IsClose` is true exactly when
the code is 221 and `NeedsData` is true exactly when the code is 354. -/
theorem Response_IsClose_iff_221_and_NeedsData_iff_354 (r : Response) :
    (r.IsClose = true ↔ r.Code = 221) ∧ (r.NeedsData = true ↔ r.Code = 354) := by
  simp [Response.IsClose, Response.NeedsData]

end Failmail
